import Mathlib

/-!
Shallow embedding of the SolenoidDriver safety-control core of the
mechanical-midi-piano firmware (SolenoidConfig.h, SolenoidChannel.h/.cpp,
SolenoidDriver.h/.cpp), together with theorems settling the frozen claims
about its specification.

Modelling conventions:
* `millis()` is passed explicitly as a `now : Nat` argument to every
  operation that reads the clock in the C++ code.
* `uint32_t` arithmetic is modelled on `Nat` with explicit wrap-around
  (`u32add`, `u32sub`); timestamps are assumed `< 2^32` where it matters.
* `float` duty-cycle arithmetic is modelled exactly: duty ratios are kept
  as unnormalized numerator/denominator pairs (`Frac`) and the `float`
  comparisons of the source become exact cross-multiplication comparisons.
  Every concrete comparison appearing in a theorem below is far from the
  rounding granularity of `float`, so the exact model decides each of them
  the same way the `float` code does.
* The MCP23017 hardware adapter is external to the repository; its output
  registers are modelled as the `hwPorts` field (one GPIOA register per
  board), and `begin_I2C`'s success/failure as a boolean oracle argument.
* The error callback is modelled as an event log (`events`): each
  `reportError(e, ch)` appends `(e, ch)`.
-/

/-- 2^32, the modulus of `uint32_t` arithmetic. -/
def U32MOD : Nat := 4294967296

/-- `UINT32_MAX`. -/
def U32MAX : Nat := 4294967295

/-- `uint32_t` addition (wraps modulo 2^32). -/
def u32add (a b : Nat) : Nat := (a + b) % U32MOD

/-- `uint32_t` subtraction (wraps modulo 2^32); faithful for `a b < 2^32`. -/
def u32sub (a b : Nat) : Nat := (a + (U32MOD - b % U32MOD)) % U32MOD

/-- Error codes of `SolenoidError` (SolenoidConfig.h). -/
inductive SolenoidError where
  | OK
  | NOT_INITIALIZED
  | INVALID_CHANNEL
  | INVALID_BOARD
  | I2C_COMMUNICATION
  | SAFETY_TIMEOUT
  | SAFETY_COOLDOWN
  | DUTY_CYCLE_EXCEEDED
  | BUSY
  | UNKNOWN
  deriving DecidableEq, Repr

open SolenoidError

/-- An exact non-negative ratio `num / den`, the model of the `float` duty
values of the source (kept unnormalized; compared by cross-multiplication). -/
structure Frac where
  num : Nat
  den : Nat
  deriving DecidableEq, Repr

/-- `a ≥ b` on ratios, by cross-multiplication. -/
def Frac.ge (a b : Frac) : Bool := a.num * b.den ≥ b.num * a.den

/-- `a > b` on ratios, by cross-multiplication. -/
def Frac.gt (a b : Frac) : Bool := a.num * b.den > b.num * a.den

/-- `f ≥ 1.0f`. -/
def Frac.geOne (f : Frac) : Bool := f.num ≥ f.den

/-- Runtime configuration `SolenoidConfig` (SolenoidConfig.h), with the
defaults of the source; `maxDutyCycle` (a `float` there, default `0.5f`) is
modelled as an exact ratio. -/
structure SolenoidConfig where
  maxOnTimeMs : Nat := 5000
  minOffTimeMs : Nat := 50
  maxDutyCycle : Frac := ⟨1, 2⟩
  dutyCycleWindowMs : Nat := 10000
  i2cTimeoutMs : Nat := 100
  i2cClockHz : Nat := 400000
  safetyEnabled : Bool := true
  debugEnabled : Bool := false
  deriving DecidableEq, Repr

/-- Per-channel tracking state `SolenoidChannel` (SolenoidChannel.h). -/
structure SolenoidChannel where
  boardIndex : Nat
  channelIndex : Nat
  globalIndex : Nat
  isOn : Bool
  lastOnTime : Nat
  lastOffTime : Nat
  totalOnTime : Nat
  activationCount : Nat
  windowStartTime : Nat
  windowOnTime : Nat
  deriving DecidableEq, Repr

namespace SolenoidChannel

/-- The `SolenoidChannel(boardIndex, channelIndex, globalIndex)` constructor:
all timing state zero, channel off. -/
def mk0 (b ch g : Nat) : SolenoidChannel :=
  { boardIndex := b, channelIndex := ch, globalIndex := g, isOn := false
    lastOnTime := 0, lastOffTime := 0, totalOnTime := 0, activationCount := 0
    windowStartTime := 0, windowOnTime := 0 }

/-- `SolenoidChannel::onDuration` (0 if off, else `millis() - _lastOnTime`). -/
def onDuration (now : Nat) (c : SolenoidChannel) : Nat :=
  if c.isOn then u32sub now c.lastOnTime else 0

/-- `SolenoidChannel::timeSinceOff` (`UINT32_MAX` if never turned off). -/
def timeSinceOff (now : Nat) (c : SolenoidChannel) : Nat :=
  if c.lastOffTime = 0 then U32MAX else u32sub now c.lastOffTime

/-- `SolenoidChannel::updateState(bool)`. -/
def updateState (now : Nat) (b : Bool) (c : SolenoidChannel) : SolenoidChannel :=
  if b ∧ ¬ c.isOn then
    { c with lastOnTime := now
             activationCount := u32add c.activationCount 1
             isOn := true
             windowStartTime := if c.windowStartTime = 0 then now else c.windowStartTime }
  else if ¬ b ∧ c.isOn then
    let d := u32sub now c.lastOnTime
    { c with totalOnTime := u32add c.totalOnTime d
             windowOnTime := u32add c.windowOnTime d
             lastOffTime := now
             lastOnTime := 0
             isOn := false }
  else c

/-- `SolenoidChannel::resetStats`. -/
def resetStats (c : SolenoidChannel) : SolenoidChannel :=
  { c with totalOnTime := 0, activationCount := 0
           windowStartTime := 0, windowOnTime := 0 }

/-- `SolenoidChannel::updateWindow` (private helper of the duty-cycle math). -/
def updateWindow (windowDurationMs now : Nat) (c : SolenoidChannel) : SolenoidChannel :=
  if c.windowStartTime = 0 then
    { c with windowStartTime := now, windowOnTime := 0 }
  else if u32sub now c.windowStartTime ≥ windowDurationMs then
    { c with windowStartTime := now, windowOnTime := 0 }
  else c

/-- `SolenoidChannel::getDutyCyclePercent`: returns the ratio and the channel
as mutated by its internal `updateWindow` call (it is a non-const member). -/
def getDutyCyclePercent (windowDurationMs now : Nat) (c : SolenoidChannel) :
    Frac × SolenoidChannel :=
  if windowDurationMs = 0 then (⟨0, 1⟩, c) else
  let c1 := updateWindow windowDurationMs now c
  let windowElapsed := u32sub now c1.windowStartTime
  if windowElapsed = 0 then (⟨0, 1⟩, c1) else
  let onTimeInWindow :=
    if c1.isOn ∧ c1.lastOnTime ≥ c1.windowStartTime then
      u32add c1.windowOnTime (u32sub now c1.lastOnTime)
    else if c1.isOn ∧ c1.lastOnTime < c1.windowStartTime then
      u32add c1.windowOnTime (u32sub now c1.windowStartTime)
    else c1.windowOnTime
  let windowElapsed1 := if windowElapsed > windowDurationMs then windowDurationMs else windowElapsed
  (⟨onTimeInWindow, windowElapsed1⟩, c1)

/-- `SolenoidChannel::wouldExceedDutyCycle` (const member). -/
def wouldExceedDutyCycle (windowDurationMs : Nat) (maxDutyCycle : Frac)
    (estimatedOnTimeMs now : Nat) (c : SolenoidChannel) : Bool :=
  if windowDurationMs = 0 ∨ maxDutyCycle.geOne then false else
  let windowElapsed := if c.windowStartTime > 0 then u32sub now c.windowStartTime else 0
  let onTimeInWindow :=
    if c.isOn ∧ c.lastOnTime ≥ c.windowStartTime then
      u32add c.windowOnTime (u32sub now c.lastOnTime)
    else if c.isOn ∧ c.lastOnTime > 0 ∧ c.windowStartTime > 0 ∧
        c.lastOnTime < c.windowStartTime then
      u32add c.windowOnTime (u32sub now c.windowStartTime)
    else c.windowOnTime
  let projectedOnTime := u32add onTimeInWindow estimatedOnTimeMs
  let projectedWindowElapsed := u32add windowElapsed estimatedOnTimeMs
  let projectedWindowElapsed1 :=
    if projectedWindowElapsed > windowDurationMs then windowDurationMs
    else projectedWindowElapsed
  if projectedWindowElapsed1 = 0 then false
  else Frac.gt ⟨projectedOnTime, projectedWindowElapsed1⟩ maxDutyCycle

end SolenoidChannel

/-- The driver state (`SolenoidDriver`, SolenoidDriver.h private members).
The fixed C arrays are modelled as functions from indices; `hwPorts` models
the GPIOA output register of each MCP23017 (the external hardware adapter)
and `events` the synchronous error-callback invocations. -/
structure SolenoidDriver where
  channels : Nat → SolenoidChannel
  boardAddresses : Nat → Nat
  boardStates : Nat → Nat
  hwPorts : Nat → Nat
  boardCount : Nat
  channelCount : Nat
  initialized : Bool
  config : SolenoidConfig
  lastError : SolenoidError
  events : List (SolenoidError × Nat)

namespace SolenoidDriver

open SolenoidChannel

/-- `SOLENOID_CHANNELS_PER_BOARD`. -/
def CHANNELS_PER_BOARD : Nat := 8

/-- `SOLENOID_MAX_BOARDS_PER_BUS`. -/
def MAX_BOARDS : Nat := 8

/-- `MCP23017_BASE_ADDRESS`. -/
def BASE_ADDRESS : Nat := 0x20

/-- `MCP23017_MAX_ADDRESS`. -/
def MAX_ADDRESS : Nat := 0x27

/-- Structural well-formedness maintained by `begin`: the channel count is
eight channels per initialized board. -/
def WF (s : SolenoidDriver) : Prop :=
  s.channelCount = CHANNELS_PER_BOARD * s.boardCount ∧ s.boardCount ≤ MAX_BOARDS

instance (s : SolenoidDriver) : Decidable (WF s) := by
  unfold WF; infer_instance

/-- Replace the state object of one channel (assignment into `_channels`). -/
def setChannel (i : Nat) (c : SolenoidChannel) (s : SolenoidDriver) : SolenoidDriver :=
  { s with channels := fun j => if j = i then c else s.channels j }

/-- `SolenoidDriver::reportError`: records `_lastError` and invokes the
error callback (modelled by appending to the event log). -/
def reportError (e : SolenoidError) (channel : Nat) (s : SolenoidDriver) : SolenoidDriver :=
  { s with lastError := e, events := s.events ++ [(e, channel)] }

/-- Set a bit of an 8-bit register (`x |= (1 << p)` on `uint8_t`). -/
def bitSet (x p : Nat) : Nat := x ||| (1 <<< p)

/-- Clear a bit of an 8-bit register (`x &= ~(1 << p)` on `uint8_t`). -/
def bitClear (x p : Nat) : Nat := x &&& (255 ^^^ (1 <<< p))

/-- `SolenoidDriver::writeChannel`: bounds check, update of the cached board
mask, and a single-pin hardware write (`digitalWrite`). -/
def writeChannel (board channel : Nat) (state : Bool) (s : SolenoidDriver) :
    Bool × SolenoidDriver :=
  if board ≥ s.boardCount ∨ channel ≥ CHANNELS_PER_BOARD then (false, s)
  else
    let upd : Nat → Nat := fun x => if state then bitSet x channel else bitClear x channel
    (true,
      { s with
        boardStates := fun b => if b = board then upd (s.boardStates b) else s.boardStates b
        hwPorts := fun b => if b = board then upd (s.hwPorts b) else s.hwPorts b })

/-- `SolenoidDriver::writeBoard`: bounds check, overwrite of the cached mask
and one bulk 8-bit hardware write (`writeGPIOA`). -/
def writeBoard (board states : Nat) (s : SolenoidDriver) : Bool × SolenoidDriver :=
  if board ≥ s.boardCount then (false, s)
  else
    (true,
      { s with
        boardStates := fun b => if b = board then states else s.boardStates b
        hwPorts := fun b => if b = board then states else s.hwPorts b })

/-- The conservative estimated on-time used by the duty-cycle projection in
`SolenoidDriver::isSafeToActivate`:
`_config.minOffTimeMs > 0 ? _config.minOffTimeMs : 100`. -/
def estimatedOnTime (cfg : SolenoidConfig) : Nat :=
  if cfg.minOffTimeMs > 0 then cfg.minOffTimeMs else 100

/-- The channel-level content of `SolenoidDriver::isSafeToActivate`: verdict,
the channel as mutated by `getDutyCyclePercent`, and the error reported on
denial. -/
def safeVerdict (cfg : SolenoidConfig) (now : Nat) (c : SolenoidChannel) :
    Bool × SolenoidChannel × SolenoidError :=
  if cfg.minOffTimeMs > 0 ∧ timeSinceOff now c < cfg.minOffTimeMs then
    (false, c, SAFETY_COOLDOWN)
  else if ¬ cfg.maxDutyCycle.geOne ∧ cfg.dutyCycleWindowMs > 0 then
    let est := estimatedOnTime cfg
    let p := getDutyCyclePercent cfg.dutyCycleWindowMs now c
    if p.1.ge cfg.maxDutyCycle then (false, p.2, DUTY_CYCLE_EXCEEDED)
    else if wouldExceedDutyCycle cfg.dutyCycleWindowMs cfg.maxDutyCycle est now p.2 then
      (false, p.2, DUTY_CYCLE_EXCEEDED)
    else (true, p.2, OK)
  else (true, c, OK)

/-- `SolenoidDriver::isSafeToActivate`: invalid channels yield `false`
without reporting; otherwise the channel mutation is stored and, on denial,
the specific safety error is reported. -/
def isSafeToActivate (now channel : Nat) (s : SolenoidDriver) : Bool × SolenoidDriver :=
  if channel ≥ s.channelCount then (false, s)
  else
    let v := safeVerdict s.config now (s.channels channel)
    let s1 := setChannel channel v.2.1 s
    if v.1 then (true, s1) else (false, reportError v.2.2 channel s1)

/-- `SolenoidDriver::globalToLocal`. -/
def globalToLocal (globalChannel : Nat) : Nat × Nat :=
  (globalChannel / CHANNELS_PER_BOARD, globalChannel % CHANNELS_PER_BOARD)

/-- `SolenoidDriver::on`. -/
def turnOn (now channel : Nat) (s : SolenoidDriver) : SolenoidError × SolenoidDriver :=
  if ¬ s.initialized then
    (NOT_INITIALIZED, reportError NOT_INITIALIZED channel s)
  else if channel ≥ s.channelCount then
    (INVALID_CHANNEL, reportError INVALID_CHANNEL channel s)
  else if (s.channels channel).isOn then
    (OK, { s with lastError := OK })
  else
    let step2 : SolenoidDriver → SolenoidError × SolenoidDriver := fun s1 =>
      let bl := globalToLocal channel
      let w := writeChannel bl.1 bl.2 true s1
      if ¬ w.1 then (I2C_COMMUNICATION, reportError I2C_COMMUNICATION channel w.2)
      else
        let s2 := setChannel channel (updateState now true (w.2.channels channel)) w.2
        (OK, { s2 with lastError := OK })
    if s.config.safetyEnabled then
      let g := isSafeToActivate now channel s
      if ¬ g.1 then (g.2.lastError, g.2) else step2 g.2
    else step2 s

/-- `SolenoidDriver::off`. -/
def off (now channel : Nat) (s : SolenoidDriver) : SolenoidError × SolenoidDriver :=
  if ¬ s.initialized then
    (NOT_INITIALIZED, reportError NOT_INITIALIZED channel s)
  else if channel ≥ s.channelCount then
    (INVALID_CHANNEL, reportError INVALID_CHANNEL channel s)
  else if ¬ (s.channels channel).isOn then
    (OK, { s with lastError := OK })
  else
    let bl := globalToLocal channel
    let w := writeChannel bl.1 bl.2 false s
    if ¬ w.1 then (I2C_COMMUNICATION, reportError I2C_COMMUNICATION channel w.2)
    else
      let s2 := setChannel channel (updateState now false (w.2.channels channel)) w.2
      (OK, { s2 with lastError := OK })

/-- `SolenoidDriver::set`. -/
def set (now channel : Nat) (state : Bool) (s : SolenoidDriver) :
    SolenoidError × SolenoidDriver :=
  if state then turnOn now channel s else off now channel s

/-- `SolenoidDriver::toggle` (validates the channel before delegating). -/
def toggle (now channel : Nat) (s : SolenoidDriver) : SolenoidError × SolenoidDriver :=
  if channel ≥ s.channelCount then
    (INVALID_CHANNEL, reportError INVALID_CHANNEL channel s)
  else set now channel (! (s.channels channel).isOn) s

/-- `SolenoidDriver::pulse` (blocking): clamps the duration to
`maxOnTimeMs`, turns on, sleeps (time advances by the clamped duration),
turns off. -/
def pulse (now channel durationMs : Nat) (s : SolenoidDriver) :
    SolenoidError × SolenoidDriver :=
  let d := if s.config.maxOnTimeMs > 0 ∧ durationMs > s.config.maxOnTimeMs then
    s.config.maxOnTimeMs else durationMs
  let r := turnOn now channel s
  if r.1 ≠ OK then r
  else off (u32add now d) channel r.2

/-- `SolenoidDriver::isOn`. -/
def isOn (channel : Nat) (s : SolenoidDriver) : Bool :=
  if channel ≥ s.channelCount then false else (s.channels channel).isOn

/-- `SolenoidDriver::getChannelState` (`nullptr` modelled as `none`). -/
def getChannelState (channel : Nat) (s : SolenoidDriver) : Option SolenoidChannel :=
  if channel ≥ s.channelCount then none else some (s.channels channel)

/-- `SolenoidDriver::getBoardState`. -/
def getBoardState (board : Nat) (s : SolenoidDriver) : Nat :=
  if board ≥ s.boardCount then 0 else s.boardStates board

/-- `SolenoidDriver::getBoardAddress`. -/
def getBoardAddress (board : Nat) (s : SolenoidDriver) : Nat :=
  if board ≥ s.boardCount then 0 else s.boardAddresses board

/-- `SolenoidDriver::getBoardCount`. -/
def getBoardCount (s : SolenoidDriver) : Nat := s.boardCount

/-- `SolenoidDriver::getChannelCount`. -/
def getChannelCount (s : SolenoidDriver) : Nat := s.channelCount

/-- `SolenoidDriver::setConfig` (the I2C clock side effect touches no
modelled state). -/
def setConfig (cfg : SolenoidConfig) (s : SolenoidDriver) : SolenoidDriver :=
  { s with config := cfg }

/-- A loop that rewrites the state object of each listed channel in order
(`for` loops over `_channels` in the source). -/
def chFold (f : Nat → SolenoidChannel → SolenoidChannel) (L : List Nat)
    (s : SolenoidDriver) : SolenoidDriver :=
  L.foldl (fun t i => setChannel i (f i (t.channels i)) t) s

/-- Loop body of `SolenoidDriver::allOn`: threads the running state,
the failed-channel count and the first error; `none` in the first component
signals the I2C abort path was not taken. -/
def allOnLoop (now : Nat) : List Nat → SolenoidDriver → Nat → SolenoidError →
    Option SolenoidError × SolenoidDriver × Nat × SolenoidError
  | [], s, failed, firstError => (none, s, failed, firstError)
  | ch :: rest, s, failed, firstError =>
    let r := turnOn now ch s
    if r.1 ≠ OK then
      let failed1 := failed + 1
      let first1 := if firstError = OK then r.1 else firstError
      if r.1 = I2C_COMMUNICATION then (some r.1, r.2, failed1, first1)
      else allOnLoop now rest r.2 failed1 first1
    else allOnLoop now rest r.2 failed firstError

/-- `SolenoidDriver::allOn`. -/
def allOn (now : Nat) (s : SolenoidDriver) : SolenoidError × SolenoidDriver :=
  if ¬ s.initialized then (NOT_INITIALIZED, reportError NOT_INITIALIZED 255 s)
  else
    match allOnLoop now (List.range s.channelCount) s 0 OK with
    | (some e, s1, _, _) => (e, s1)
    | (none, s1, failed, firstError) =>
      if failed > 0 then (firstError, s1)
      else (OK, { s1 with lastError := OK })

/-- Loop body of `SolenoidDriver::allOff`: per board, one bulk zero write
then the per-channel state updates; aborts on a failed board write. -/
def allOffLoop (now : Nat) : List Nat → SolenoidDriver → Bool × SolenoidDriver
  | [], s => (true, s)
  | b :: rest, s =>
    let w := writeBoard b 0 s
    if ¬ w.1 then (false, reportError I2C_COMMUNICATION 255 w.2)
    else
      allOffLoop now rest
        (chFold (fun _ c => updateState now false c)
          ((List.range CHANNELS_PER_BOARD).map (fun ch => b * CHANNELS_PER_BOARD + ch)) w.2)

/-- `SolenoidDriver::allOff`. -/
def allOff (now : Nat) (s : SolenoidDriver) : SolenoidError × SolenoidDriver :=
  if ¬ s.initialized then (NOT_INITIALIZED, reportError NOT_INITIALIZED 255 s)
  else
    let r := allOffLoop now (List.range s.boardCount) s
    if ¬ r.1 then (r.2.lastError, r.2)
    else (OK, { r.2 with lastError := OK })

/-- The safety-filter loop of `SolenoidDriver::setBoardChannels`: walks the
8 local pins, clearing from the requested mask every bit that would newly
turn on a channel that fails `isSafeToActivate`, and collecting the blocked
bits. Returns (effective mask, blocked mask, state after the checks). -/
def filterMask (now board : Nat) : List Nat → Nat → Nat → SolenoidDriver →
    Nat × Nat × SolenoidDriver
  | [], states, blocked, s => (states, blocked, s)
  | ch :: rest, states, blocked, s =>
    let wasOn := (s.boardStates board).testBit ch
    let willBeOn := states.testBit ch
    if willBeOn ∧ ¬ wasOn then
      let g := isSafeToActivate now (board * CHANNELS_PER_BOARD + ch) s
      if ¬ g.1 then
        filterMask now board rest (bitClear states ch) (bitSet blocked ch) g.2
      else filterMask now board rest states blocked g.2
    else filterMask now board rest states blocked s

/-- `SolenoidDriver::updateBoardChannelStates`. -/
def updateBoardChannelStates (now board states : Nat) (s : SolenoidDriver) :
    SolenoidDriver :=
  chFold (fun i c => updateState now (states.testBit (i - board * CHANNELS_PER_BOARD)) c)
    ((List.range CHANNELS_PER_BOARD).map (fun ch => board * CHANNELS_PER_BOARD + ch)) s

/-- `SolenoidDriver::setBoardChannels` (`states` is a `uint8_t`, hence taken
modulo 256 at the call boundary). -/
def setBoardChannels (now board states0 : Nat) (s : SolenoidDriver) :
    SolenoidError × SolenoidDriver :=
  if ¬ s.initialized then (NOT_INITIALIZED, reportError NOT_INITIALIZED 255 s)
  else if board ≥ s.boardCount then (INVALID_BOARD, reportError INVALID_BOARD 255 s)
  else
    let states := states0 % 256
    let f :=
      if s.config.safetyEnabled then
        filterMask now board (List.range CHANNELS_PER_BOARD) states 0 s
      else (states, 0, s)
    let w := writeBoard board f.1 f.2.2
    if ¬ w.1 then (I2C_COMMUNICATION, reportError I2C_COMMUNICATION 255 w.2)
    else
      let s2 := updateBoardChannelStates now board f.1 w.2
      if f.2.1 ≠ 0 then (s2.lastError, s2)
      else (OK, { s2 with lastError := OK })

/-- Loop body of `SolenoidDriver::setAll`: applies each board mask,
aborting on I2C failure and tracking whether any channel was blocked. -/
def setAllLoop (now : Nat) (states : Nat → Nat) :
    List Nat → Bool → SolenoidDriver → Option SolenoidError × Bool × SolenoidDriver
  | [], anyBlocked, s => (none, anyBlocked, s)
  | b :: rest, anyBlocked, s =>
    let r := setBoardChannels now b (states b) s
    if r.1 = I2C_COMMUNICATION then (some r.1, anyBlocked, r.2)
    else if r.1 ≠ OK then setAllLoop now states rest true r.2
    else setAllLoop now states rest anyBlocked r.2

/-- `SolenoidDriver::setAll`. -/
def setAll (now : Nat) (states : Nat → Nat) (stateCount : Nat) (s : SolenoidDriver) :
    SolenoidError × SolenoidDriver :=
  if ¬ s.initialized then (NOT_INITIALIZED, reportError NOT_INITIALIZED 255 s)
  else if stateCount < s.boardCount then (INVALID_BOARD, reportError INVALID_BOARD 255 s)
  else
    match setAllLoop now states (List.range s.boardCount) false s with
    | (some e, _, s1) => (e, s1)
    | (none, anyBlocked, s1) =>
      if anyBlocked then (s1.lastError, s1)
      else (OK, { s1 with lastError := OK })

/-- One iteration of the timeout sweep in `SolenoidDriver::update` (the
result of `writeChannel` is ignored there, as in the source). -/
def sweepStep (now : Nat) (s : SolenoidDriver) (ch : Nat) : SolenoidDriver :=
  if (s.channels ch).isOn then
    if s.config.maxOnTimeMs > 0 then
      if onDuration now (s.channels ch) ≥ s.config.maxOnTimeMs then
        let bl := globalToLocal ch
        let s1 := (writeChannel bl.1 bl.2 false s).2
        let s2 := setChannel ch (updateState now false (s1.channels ch)) s1
        reportError SAFETY_TIMEOUT ch s2
      else s
    else s
  else s

/-- `SolenoidDriver::update`: the periodic safety sweep. -/
def update (now : Nat) (s : SolenoidDriver) : SolenoidDriver :=
  if ¬ s.initialized then s
  else (List.range s.channelCount).foldl (sweepStep now) s

/-- `SolenoidDriver::emergencyStop`: writes `0x00` directly to every board
register (bypassing the cache), zeroes the cached masks, then marks every
channel state off. -/
def emergencyStop (now : Nat) (s : SolenoidDriver) : SolenoidDriver :=
  let s1 := { s with
    boardStates := fun b => if b < s.boardCount then 0 else s.boardStates b
    hwPorts := fun b => if b < s.boardCount then 0 else s.hwPorts b }
  chFold (fun _ c => updateState now false c) (List.range s.channelCount) s1

/-- `SolenoidDriver::resetAllStats`. -/
def resetAllStats (s : SolenoidDriver) : SolenoidDriver :=
  chFold (fun _ c => resetStats c) (List.range s.channelCount) s

/-- Install one successfully initialized board during `begin`: pins as
outputs, all outputs zeroed, board bookkeeping, fresh channel objects,
channel count refreshed. -/
def installBoard (i addr : Nat) (s : SolenoidDriver) : SolenoidDriver :=
  let s1 := { s with
    hwPorts := fun b => if b = i then 0 else s.hwPorts b
    boardAddresses := fun b => if b = i then addr else s.boardAddresses b
    boardStates := fun b => if b = i then 0 else s.boardStates b
    boardCount := s.boardCount + 1 }
  let s2 := chFold (fun g _ => SolenoidChannel.mk0 i (g - i * CHANNELS_PER_BOARD) g)
    ((List.range CHANNELS_PER_BOARD).map (fun ch => i * CHANNELS_PER_BOARD + ch)) s1
  { s2 with channelCount := s2.boardCount * CHANNELS_PER_BOARD }

/-- Board-initialization loop of `begin`: `mcpOk i` is the oracle for the
external `Adafruit_MCP23X17::begin_I2C` call on board `i`. -/
def beginBoards (mcpOk : Nat → Bool) (addresses : Nat → Nat) :
    List Nat → SolenoidDriver → Bool × SolenoidDriver
  | [], s => (true, s)
  | i :: rest, s =>
    if ¬ mcpOk i then (false, reportError I2C_COMMUNICATION 255 s)
    else beginBoards mcpOk addresses rest (installBoard i (addresses i) s)

/-- `SolenoidDriver::begin(wire, addresses, count)`. -/
def begin (mcpOk : Nat → Bool) (addresses : Nat → Nat) (count : Nat)
    (s : SolenoidDriver) : Bool × SolenoidDriver :=
  if count = 0 ∨ count > MAX_BOARDS then (false, reportError INVALID_BOARD 255 s)
  else if (List.range count).any
      (fun i => addresses i < BASE_ADDRESS ∨ addresses i > MAX_ADDRESS) then
    (false, reportError INVALID_BOARD 255 s)
  else
    let s0 := { s with boardCount := 0, channelCount := 0, initialized := false }
    let r := beginBoards mcpOk addresses (List.range count) s0
    if ¬ r.1 then (false, r.2)
    else (true, { r.2 with initialized := true, lastError := OK })

/-- The driver as constructed by `SolenoidDriver()` (before `begin`). -/
def init0 : SolenoidDriver :=
  { channels := fun _ => SolenoidChannel.mk0 0 0 0
    boardAddresses := fun _ => 0
    boardStates := fun _ => 0
    hwPorts := fun _ => 0
    boardCount := 0
    channelCount := 0
    initialized := false
    config := {}
    lastError := OK
    events := [] }

end SolenoidDriver

section ChannelLemmas

open SolenoidChannel

theorem u32sub_self (a : Nat) : u32sub a a = 0 := by
  have h1 : a % U32MOD ≤ a := Nat.mod_le a U32MOD
  have h2 : a % U32MOD < U32MOD := Nat.mod_lt _ (by unfold U32MOD; omega)
  have h3 : a + (U32MOD - a % U32MOD) = U32MOD + (a - a % U32MOD) := by omega
  have h4 : a - a % U32MOD = U32MOD * (a / U32MOD) := by
    have := Nat.div_add_mod a U32MOD
    omega
  unfold u32sub
  rw [h3, h4, Nat.add_mul_mod_self_left, Nat.mod_self]

theorem updateState_isOn (now : Nat) (b : Bool) (c : SolenoidChannel) :
    (updateState now b c).isOn = b := by
  unfold updateState
  cases b <;> cases hc : c.isOn <;> simp [hc]

theorem updateState_on_of_on (now : Nat) (c : SolenoidChannel) (h : c.isOn = true) :
    updateState now true c = c := by
  unfold updateState
  simp [h]

theorem updateState_off_of_off (now : Nat) (c : SolenoidChannel) (h : c.isOn = false) :
    updateState now false c = c := by
  unfold updateState
  simp [h]

theorem updateWindow_preserves (w now : Nat) (c : SolenoidChannel) :
    (updateWindow w now c).isOn = c.isOn ∧
    (updateWindow w now c).lastOnTime = c.lastOnTime ∧
    (updateWindow w now c).lastOffTime = c.lastOffTime := by
  unfold updateWindow
  split <;> [skip; split] <;> simp

theorem updateWindow_idem (w now : Nat) (hw : 0 < w) (c : SolenoidChannel) :
    updateWindow w now (updateWindow w now c) = updateWindow w now c := by
  unfold updateWindow
  by_cases h0 : c.windowStartTime = 0
  · simp only [h0, if_pos rfl]
    by_cases hn : now = 0
    · simp [hn]
    · simp [hn, u32sub_self, Nat.not_le.mpr hw]
  · simp only [if_neg h0]
    by_cases hage : u32sub now c.windowStartTime ≥ w
    · simp only [if_pos hage]
      by_cases hn : now = 0
      · simp [hn]
      · simp [hn, u32sub_self, Nat.not_le.mpr hw]
    · simp [hage, h0]

theorem getDutyCyclePercent_snd (w now : Nat) (c : SolenoidChannel) :
    (getDutyCyclePercent w now c).2 = if w = 0 then c else updateWindow w now c := by
  unfold getDutyCyclePercent
  split
  · simp
  · dsimp only
    split <;> rfl

/-- The channel returned by `getDutyCyclePercent` preserves the on/off state
and both transition timestamps. -/
theorem getDutyCyclePercent_preserves (w now : Nat) (c : SolenoidChannel) :
    (getDutyCyclePercent w now c).2.isOn = c.isOn ∧
    (getDutyCyclePercent w now c).2.lastOnTime = c.lastOnTime ∧
    (getDutyCyclePercent w now c).2.lastOffTime = c.lastOffTime := by
  rw [getDutyCyclePercent_snd]
  split
  · exact ⟨rfl, rfl, rfl⟩
  · exact updateWindow_preserves w now c

/-- Running `getDutyCyclePercent` a second time at the same instant returns
the same ratio and the same channel. -/
theorem getDutyCyclePercent_idem (w now : Nat) (c : SolenoidChannel) :
    getDutyCyclePercent w now (getDutyCyclePercent w now c).2 =
      getDutyCyclePercent w now c := by
  by_cases hw : w = 0
  · simp [getDutyCyclePercent, hw]
  · have hsnd : (getDutyCyclePercent w now c).2 = updateWindow w now c := by
      rw [getDutyCyclePercent_snd, if_neg hw]
    have hidem := updateWindow_idem w now (Nat.pos_of_ne_zero hw) c
    conv_lhs => rw [hsnd]
    unfold getDutyCyclePercent
    rw [if_neg hw, if_neg hw, hidem]

end ChannelLemmas


section DriverLemmas

open SolenoidChannel SolenoidDriver

theorem setChannel_channels (i : Nat) (c : SolenoidChannel) (s : SolenoidDriver) (j : Nat) :
    (setChannel i c s).channels j = if j = i then c else s.channels j := rfl

/-- `setChannel` changes nothing but the channel array. -/
theorem setChannel_misc (i : Nat) (c : SolenoidChannel) (s : SolenoidDriver) :
    (setChannel i c s).boardStates = s.boardStates ∧
    (setChannel i c s).hwPorts = s.hwPorts ∧
    (setChannel i c s).boardAddresses = s.boardAddresses ∧
    (setChannel i c s).boardCount = s.boardCount ∧
    (setChannel i c s).channelCount = s.channelCount ∧
    (setChannel i c s).initialized = s.initialized ∧
    (setChannel i c s).config = s.config ∧
    (setChannel i c s).lastError = s.lastError ∧
    (setChannel i c s).events = s.events :=
  ⟨rfl, rfl, rfl, rfl, rfl, rfl, rfl, rfl, rfl⟩

/-- `reportError` changes nothing but `lastError` and the event log. -/
theorem reportError_misc (e : SolenoidError) (ch : Nat) (s : SolenoidDriver) :
    (reportError e ch s).channels = s.channels ∧
    (reportError e ch s).boardStates = s.boardStates ∧
    (reportError e ch s).hwPorts = s.hwPorts ∧
    (reportError e ch s).boardAddresses = s.boardAddresses ∧
    (reportError e ch s).boardCount = s.boardCount ∧
    (reportError e ch s).channelCount = s.channelCount ∧
    (reportError e ch s).initialized = s.initialized ∧
    (reportError e ch s).config = s.config ∧
    (reportError e ch s).lastError = e ∧
    (reportError e ch s).events = s.events ++ [(e, ch)] :=
  ⟨rfl, rfl, rfl, rfl, rfl, rfl, rfl, rfl, rfl, rfl⟩

/-- `writeChannel` changes nothing but the cached mask and hardware register
of the addressed board. -/
theorem writeChannel_misc (b p : Nat) (st : Bool) (s : SolenoidDriver) :
    (writeChannel b p st s).2.channels = s.channels ∧
    (writeChannel b p st s).2.boardAddresses = s.boardAddresses ∧
    (writeChannel b p st s).2.boardCount = s.boardCount ∧
    (writeChannel b p st s).2.channelCount = s.channelCount ∧
    (writeChannel b p st s).2.initialized = s.initialized ∧
    (writeChannel b p st s).2.config = s.config ∧
    (writeChannel b p st s).2.lastError = s.lastError ∧
    (writeChannel b p st s).2.events = s.events := by
  unfold writeChannel
  split <;> exact ⟨rfl, rfl, rfl, rfl, rfl, rfl, rfl, rfl⟩

theorem writeChannel_fst (b p : Nat) (st : Bool) (s : SolenoidDriver)
    (hb : b < s.boardCount) (hp : p < CHANNELS_PER_BOARD) :
    (writeChannel b p st s).1 = true := by
  unfold writeChannel
  rw [if_neg]
  push_neg
  exact ⟨hb, hp⟩

theorem writeBoard_misc (b m : Nat) (s : SolenoidDriver) :
    (writeBoard b m s).2.channels = s.channels ∧
    (writeBoard b m s).2.boardAddresses = s.boardAddresses ∧
    (writeBoard b m s).2.boardCount = s.boardCount ∧
    (writeBoard b m s).2.channelCount = s.channelCount ∧
    (writeBoard b m s).2.initialized = s.initialized ∧
    (writeBoard b m s).2.config = s.config ∧
    (writeBoard b m s).2.lastError = s.lastError ∧
    (writeBoard b m s).2.events = s.events := by
  unfold writeBoard
  split <;> exact ⟨rfl, rfl, rfl, rfl, rfl, rfl, rfl, rfl⟩

theorem writeBoard_fst (b m : Nat) (s : SolenoidDriver) (hb : b < s.boardCount) :
    (writeBoard b m s).1 = true := by
  unfold writeBoard
  rw [if_neg (by omega)]

theorem writeBoard_boardStates (b m : Nat) (s : SolenoidDriver) (hb : b < s.boardCount) (j : Nat) :
    ((writeBoard b m s).2.boardStates j = if j = b then m else s.boardStates j) ∧
    ((writeBoard b m s).2.hwPorts j = if j = b then m else s.hwPorts j) := by
  unfold writeBoard
  rw [if_neg (by omega)]
  exact ⟨by split <;> simp_all, by split <;> simp_all⟩

theorem chFold_channels (f : Nat → SolenoidChannel → SolenoidChannel) :
    ∀ (L : List Nat) (s : SolenoidDriver) (j : Nat), L.Nodup →
      (chFold f L s).channels j = if j ∈ L then f j (s.channels j) else s.channels j := by
  intro L
  induction L with
  | nil => intro s j _; simp [chFold]
  | cons a t ih =>
    intro s j h
    rw [List.nodup_cons] at h
    have hstep : chFold f (a :: t) s = chFold f t (setChannel a (f a (s.channels a)) s) := rfl
    rw [hstep, ih _ j h.2]
    by_cases hj : j ∈ t
    · have hja : j ≠ a := fun hh => h.1 (hh ▸ hj)
      simp [setChannel_channels, hj, hja, List.mem_cons]
    · by_cases hja : j = a
      · subst hja
        simp [setChannel_channels, hj]
      · simp [setChannel_channels, hj, hja, List.mem_cons]

theorem chFold_misc (f : Nat → SolenoidChannel → SolenoidChannel) :
    ∀ (L : List Nat) (s : SolenoidDriver),
      (chFold f L s).boardStates = s.boardStates ∧
      (chFold f L s).hwPorts = s.hwPorts ∧
      (chFold f L s).boardAddresses = s.boardAddresses ∧
      (chFold f L s).boardCount = s.boardCount ∧
      (chFold f L s).channelCount = s.channelCount ∧
      (chFold f L s).initialized = s.initialized ∧
      (chFold f L s).config = s.config ∧
      (chFold f L s).lastError = s.lastError ∧
      (chFold f L s).events = s.events := by
  intro L
  induction L with
  | nil => intro s; exact ⟨rfl, rfl, rfl, rfl, rfl, rfl, rfl, rfl, rfl⟩
  | cons a t ih =>
    intro s
    exact ih (setChannel a (f a (s.channels a)) s)

end DriverLemmas

section ClaimC4

open SolenoidDriver

/-- The estimated on-time as the specification words it: `max(minOffTimeMs, 100)`
("defaults to minOffTimeMs, minimum 100ms"). Stated only to be compared with
`estimatedOnTime`, which is translated from the source. -/
def specEstimatedOnTime (cfg : SolenoidConfig) : Nat :=
  max cfg.minOffTimeMs 100

/-- Claim C4, counterexample: with `minOffTimeMs = 50` (the default), the
source computes an estimated on-time of 50 ms, not `max(50, 100) = 100` —
the estimate can be below 100 ms, refuting the claim as stated. -/
theorem claim_C4_cex :
    estimatedOnTime { minOffTimeMs := 50 } = 50 ∧
    specEstimatedOnTime { minOffTimeMs := 50 } = 100 ∧
    estimatedOnTime { minOffTimeMs := 50 } ≠
      specEstimatedOnTime { minOffTimeMs := 50 } := by
  refine ⟨rfl, rfl, ?_⟩
  decide

/-- Claim C4, amended: the conservative estimated on-time of the duty-cycle
projection equals `minOffTimeMs` whenever `minOffTimeMs > 0`, and 100 ms only
when `minOffTimeMs = 0`; it agrees with the claimed `max(minOffTimeMs, 100)`
exactly when `minOffTimeMs` is 0 or at least 100. -/
theorem claim_C4 (cfg : SolenoidConfig) :
    (0 < cfg.minOffTimeMs → estimatedOnTime cfg = cfg.minOffTimeMs) ∧
    (cfg.minOffTimeMs = 0 → estimatedOnTime cfg = 100) ∧
    (estimatedOnTime cfg = specEstimatedOnTime cfg ↔
      cfg.minOffTimeMs = 0 ∨ 100 ≤ cfg.minOffTimeMs) := by
  unfold estimatedOnTime specEstimatedOnTime
  refine ⟨fun h => by simp [h], fun h => by simp [h], ?_⟩
  rcases Nat.lt_or_ge cfg.minOffTimeMs 100 with h | h
  · rw [Nat.max_eq_right (Nat.le_of_lt h)]
    split_ifs <;> omega
  · rw [Nat.max_eq_left h]
    split_ifs <;> omega

/-- Witness for claim C4's amended theorem at two concrete configurations. -/
theorem claim_C4_witness :
    (0 < 200 ∧ estimatedOnTime { minOffTimeMs := 200 } = 200) ∧
    estimatedOnTime { minOffTimeMs := 0 } = 100 :=
  ⟨⟨by decide, (claim_C4 { minOffTimeMs := 200 }).1 (by decide)⟩,
    (claim_C4 { minOffTimeMs := 0 }).2.1 rfl⟩

end ClaimC4

section ClaimC2

open SolenoidDriver

/-- Claim C2, counterexample: with exactly the claimed configuration
`{maxOnTimeMs := 2000, minOffTimeMs := 15}` and every other field default
(in particular `maxDutyCycle = 0.5`, `dutyCycleWindowMs = 10000`), the call
sequence on(0)@0, off(0)@2500, on(0)@2510, on(0)@2516 on a freshly
initialized one-board driver returns
(DUTY_CYCLE_EXCEEDED, OK, DUTY_CYCLE_EXCEEDED, DUTY_CYCLE_EXCEEDED):
the duty-cycle projection (estimate 15 over an elapsed-plus-estimate window
of 15, i.e. 100% > 50%) rejects the very first activation, so the claimed
(OK, OK, SAFETY_COOLDOWN, OK) is false on the code. -/
theorem claim_C2_cex :
    (let s1 := setConfig { maxOnTimeMs := 2000, minOffTimeMs := 15 }
      (begin (fun _ => true) (fun _ => 0x20) 1 init0).2
     let r1 := turnOn 0 0 s1
     let r2 := off 2500 0 r1.2
     let r3 := turnOn 2510 0 r2.2
     let r4 := turnOn 2516 0 r3.2
     (r1.1, r2.1, r3.1, r4.1)) =
      (DUTY_CYCLE_EXCEEDED, OK, DUTY_CYCLE_EXCEEDED, DUTY_CYCLE_EXCEEDED) ∧
    (DUTY_CYCLE_EXCEEDED, OK, DUTY_CYCLE_EXCEEDED, DUTY_CYCLE_EXCEEDED) ≠
      ((OK : SolenoidError), OK, SAFETY_COOLDOWN, OK) := by
  constructor
  · decide
  · decide

/-- Claim C2, amended: with the driver initialized, safetyEnabled true, and
config `{maxOnTimeMs := 2000, minOffTimeMs := 15, maxDutyCycle := 1.0}`
(duty-cycle limiting disabled, which the counterexample forces; other fields
default), the sequence on(0)@0, off(0)@2500, on(0)@2510, on(0)@2516 returns
OK, OK, SAFETY_COOLDOWN, OK in order. -/
theorem claim_C2 :
    (let s1 := setConfig
      { maxOnTimeMs := 2000, minOffTimeMs := 15, maxDutyCycle := ⟨1, 1⟩ }
      (begin (fun _ => true) (fun _ => 0x20) 1 init0).2
     let r1 := turnOn 0 0 s1
     let r2 := off 2500 0 r1.2
     let r3 := turnOn 2510 0 r2.2
     let r4 := turnOn 2516 0 r3.2
     (s1.initialized, s1.config.safetyEnabled, r1.1, r2.1, r3.1, r4.1)) =
      (true, true, OK, OK, SAFETY_COOLDOWN, OK) := by
  decide

end ClaimC2

section ClaimC9

open SolenoidDriver

/-- Everything except the error-reporting state (`lastError`, `events`)
agrees between two driver states. -/
def sameCore (s t : SolenoidDriver) : Prop :=
  (∀ j, t.channels j = s.channels j) ∧
  (∀ b, t.boardStates b = s.boardStates b) ∧
  (∀ b, t.hwPorts b = s.hwPorts b) ∧
  (∀ b, t.boardAddresses b = s.boardAddresses b) ∧
  t.boardCount = s.boardCount ∧
  t.channelCount = s.channelCount ∧
  t.initialized = s.initialized ∧
  t.config = s.config

theorem sameCore_reportError (e : SolenoidError) (ch : Nat) (s : SolenoidDriver) :
    sameCore s (reportError e ch s) := by
  unfold sameCore reportError
  exact ⟨fun _ => rfl, fun _ => rfl, fun _ => rfl, fun _ => rfl, rfl, rfl, rfl, rfl⟩

/-- Claim C9, counterexample: on a freshly initialized one-board driver
(channelCount = 8, lastError = OK), calling `on(8)` returns INVALID_CHANNEL
but *does* mutate driver state: the last-error code changes from OK to
INVALID_CHANNEL (and the error callback fires), refuting the claim's
"without mutating any state — ... or other driver state changes". -/
theorem claim_C9_cex :
    (let s0 := (begin (fun _ => true) (fun _ => 0x20) 1 init0).2
     getChannelCount s0 ≤ 8 ∧ s0.lastError = OK ∧
       (turnOn 0 8 s0).2.lastError = INVALID_CHANNEL ∧
       (turnOn 0 8 s0).2.lastError ≠ s0.lastError ∧
       (turnOn 0 8 s0).2.events ≠ s0.events) := by
  decide

/-- Claim C9, amended: on an initialized driver, every public channel
operation given `channel ≥ getChannelCount()` returns INVALID_CHANNEL (or
`false`/null for `isOn`/`getChannelState`) and leaves every channel state,
cached board mask, hardware register, board address, count and the
configuration unchanged; the only mutation is the error-reporting state:
`lastError` is set to INVALID_CHANNEL (and the error callback is invoked). -/
theorem claim_C9 (s : SolenoidDriver) (now ch d : Nat)
    (hinit : s.initialized = true) (hch : ch ≥ s.channelCount) :
    ((turnOn now ch s).1 = INVALID_CHANNEL ∧ sameCore s (turnOn now ch s).2 ∧
      (turnOn now ch s).2.lastError = INVALID_CHANNEL) ∧
    ((off now ch s).1 = INVALID_CHANNEL ∧ sameCore s (off now ch s).2 ∧
      (off now ch s).2.lastError = INVALID_CHANNEL) ∧
    (∀ b, (set now ch b s).1 = INVALID_CHANNEL ∧ sameCore s (set now ch b s).2 ∧
      (set now ch b s).2.lastError = INVALID_CHANNEL) ∧
    ((toggle now ch s).1 = INVALID_CHANNEL ∧ sameCore s (toggle now ch s).2 ∧
      (toggle now ch s).2.lastError = INVALID_CHANNEL) ∧
    ((pulse now ch d s).1 = INVALID_CHANNEL ∧ sameCore s (pulse now ch d s).2 ∧
      (pulse now ch d s).2.lastError = INVALID_CHANNEL) ∧
    isOn ch s = false ∧
    getChannelState ch s = none := by
  have hnot : ¬ ch < s.channelCount := Nat.not_lt.mpr hch
  have hon : turnOn now ch s = (INVALID_CHANNEL, reportError INVALID_CHANNEL ch s) := by
    unfold turnOn
    rw [if_neg (by simp [hinit]), if_pos hch]
  have hoff : off now ch s = (INVALID_CHANNEL, reportError INVALID_CHANNEL ch s) := by
    unfold off
    rw [if_neg (by simp [hinit]), if_pos hch]
  refine ⟨⟨?_, ?_, ?_⟩, ⟨?_, ?_, ?_⟩, ?_, ⟨?_, ?_, ?_⟩, ⟨?_, ?_, ?_⟩, ?_, ?_⟩
  · rw [hon]
  · rw [hon]; exact sameCore_reportError _ _ _
  · rw [hon]; rfl
  · rw [hoff]
  · rw [hoff]; exact sameCore_reportError _ _ _
  · rw [hoff]; rfl
  · intro b
    cases b
    · unfold SolenoidDriver.set
      rw [if_neg (by simp), hoff]
      exact ⟨rfl, sameCore_reportError _ _ _, rfl⟩
    · unfold SolenoidDriver.set
      rw [if_pos rfl, hon]
      exact ⟨rfl, sameCore_reportError _ _ _, rfl⟩
  · unfold toggle
    rw [if_pos hch]
  · unfold toggle
    rw [if_pos hch]
    exact sameCore_reportError _ _ _
  · unfold toggle
    rw [if_pos hch]
    rfl
  · unfold pulse
    rw [hon]
    simp
  · unfold pulse
    rw [hon]
    simp
    exact sameCore_reportError _ _ _
  · unfold pulse
    rw [hon]
    simp [reportError]
  · unfold isOn
    rw [if_pos hch]
  · unfold getChannelState
    rw [if_pos hch]

/-- Witness for claim C9's amended theorem: a concrete initialized one-board
driver and the out-of-range channel 8. -/
theorem claim_C9_witness :
    (let s0 := (begin (fun _ => true) (fun _ => 0x20) 1 init0).2
     (turnOn 0 8 s0).1 = INVALID_CHANNEL ∧ isOn 8 s0 = false ∧
       getChannelState 8 s0 = none) := by
  have h := claim_C9 (begin (fun _ => true) (fun _ => 0x20) 1 init0).2 0 8 0
    (by decide) (by decide)
  exact ⟨h.1.1, h.2.2.2.2.2.1, h.2.2.2.2.2.2⟩

end ClaimC9

section ClaimC3

open SolenoidChannel SolenoidDriver

/-- Claim C3: on an initialized driver with safety enabled and a positive
cooldown, calling `on` for a currently-off valid channel whose time since
deactivation is below `minOffTimeMs` returns SAFETY_COOLDOWN and leaves the
channel states (in particular all timing fields), the cached board masks and
the hardware registers unchanged — no hardware write is issued. -/
theorem claim_C3 (s : SolenoidDriver) (now ch : Nat)
    (hinit : s.initialized = true) (hch : ch < s.channelCount)
    (hoff : (s.channels ch).isOn = false)
    (hsafe : s.config.safetyEnabled = true)
    (hmin : 0 < s.config.minOffTimeMs)
    (hcool : timeSinceOff now (s.channels ch) < s.config.minOffTimeMs) :
    (turnOn now ch s).1 = SAFETY_COOLDOWN ∧
    sameCore s (turnOn now ch s).2 ∧
    (turnOn now ch s).2.lastError = SAFETY_COOLDOWN := by
  have hnot : ¬ ch ≥ s.channelCount := Nat.not_le.mpr hch
  have hsv : safeVerdict s.config now (s.channels ch) =
      (false, s.channels ch, SAFETY_COOLDOWN) := by
    unfold safeVerdict
    rw [if_pos ⟨hmin, hcool⟩]
  have hsafeAct : isSafeToActivate now ch s =
      (false, reportError SAFETY_COOLDOWN ch (setChannel ch (s.channels ch) s)) := by
    unfold isSafeToActivate
    rw [if_neg hnot]
    simp only [hsv]
    simp
  have hrun : turnOn now ch s =
      ((reportError SAFETY_COOLDOWN ch (setChannel ch (s.channels ch) s)).lastError,
        reportError SAFETY_COOLDOWN ch (setChannel ch (s.channels ch) s)) := by
    unfold turnOn
    rw [if_neg (by simp [hinit]), if_neg (by omega), if_neg (by simp [hoff]),
      if_pos hsafe, hsafeAct]
    simp
  rw [hrun]
  refine ⟨rfl, ?_, rfl⟩
  unfold sameCore reportError setChannel
  refine ⟨fun j => ?_, fun _ => rfl, fun _ => rfl, fun _ => rfl, rfl, rfl, rfl, rfl⟩
  by_cases hj : j = ch <;> simp [hj]

/-- Witness for claim C3: one-board driver, channel 0 turned on at t=0 and
off at t=100; re-activation at t=110 is 10 ms into the default 50 ms
cooldown. -/
theorem claim_C3_witness :
    (let s0 := (begin (fun _ => true) (fun _ => 0x20) 1 init0).2
     let s1 := (off 100 0 (turnOn 0 0 (setConfig { maxDutyCycle := ⟨1, 1⟩ } s0)).2).2
     (turnOn 110 0 s1).1 = SAFETY_COOLDOWN ∧ (turnOn 110 0 s1).2.lastError = SAFETY_COOLDOWN) := by
  have h := claim_C3
    ((off 100 0 (turnOn 0 0 (setConfig { maxDutyCycle := ⟨1, 1⟩ }
      (begin (fun _ => true) (fun _ => 0x20) 1 init0).2)).2).2)
    110 0 (by decide) (by decide) (by decide) (by decide) (by decide) (by decide)
  exact ⟨h.1, h.2.2⟩

end ClaimC3

section ClaimC5

open SolenoidChannel SolenoidDriver

theorem boardChannelList_mem (b c : Nat) :
    c ∈ (List.range CHANNELS_PER_BOARD).map (fun ch => b * CHANNELS_PER_BOARD + ch) ↔
      c / 8 = b := by
  simp only [List.mem_map, List.mem_range, CHANNELS_PER_BOARD]
  constructor
  · rintro ⟨ch, hch, rfl⟩
    omega
  · intro hc
    exact ⟨c % 8, by omega, by omega⟩

theorem boardChannelList_nodup (b : Nat) :
    ((List.range CHANNELS_PER_BOARD).map (fun ch => b * CHANNELS_PER_BOARD + ch)).Nodup :=
  (List.nodup_range _).map (fun a1 a2 h => by omega)

/-- Full description of the `allOff` board loop: it succeeds, preserves the
counts, and forces off exactly the channels of the listed boards. -/
theorem allOffLoop_spec (now : Nat) : ∀ (L : List Nat) (s : SolenoidDriver),
    (∀ b ∈ L, b < s.boardCount) →
    (allOffLoop now L s).1 = true ∧
    (allOffLoop now L s).2.boardCount = s.boardCount ∧
    (allOffLoop now L s).2.channelCount = s.channelCount ∧
    (allOffLoop now L s).2.initialized = s.initialized ∧
    (∀ c, ((allOffLoop now L s).2.channels c).isOn =
      if c / 8 ∈ L then false else (s.channels c).isOn) := by
  intro L
  induction L with
  | nil =>
    intro s _
    refine ⟨rfl, rfl, rfl, rfl, fun c => ?_⟩
    simp [allOffLoop]
  | cons b t ih =>
    intro s h
    have hb : b < s.boardCount := h b (List.mem_cons_self b t)
    have hw := writeBoard_fst b 0 s hb
    have hwm := writeBoard_misc b 0 s
    have hstep : allOffLoop now (b :: t) s =
        allOffLoop now t
          (chFold (fun _ c => updateState now false c)
            ((List.range CHANNELS_PER_BOARD).map (fun ch => b * CHANNELS_PER_BOARD + ch))
            (writeBoard b 0 s).2) := by
      simp only [allOffLoop]
      simp [hw]
    set M := (List.range CHANNELS_PER_BOARD).map (fun ch => b * CHANNELS_PER_BOARD + ch) with hM
    set s2 := chFold (fun _ c => updateState now false c) M (writeBoard b 0 s).2 with hs2
    have hfm := chFold_misc (fun _ c => updateState now false c) M (writeBoard b 0 s).2
    have hbc2 : s2.boardCount = s.boardCount := by rw [hfm.2.2.2.1, hwm.2.2.1]
    have hcc2 : s2.channelCount = s.channelCount := by rw [hfm.2.2.2.2.1, hwm.2.2.2.1]
    have hin2 : s2.initialized = s.initialized := by rw [hfm.2.2.2.2.2.1, hwm.2.2.2.2.1]
    have hch2 : ∀ c, (s2.channels c).isOn =
        if c / 8 = b then false else (s.channels c).isOn := by
      intro c
      rw [hs2, chFold_channels _ M _ c (boardChannelList_nodup b)]
      by_cases hc : c / 8 = b
      · rw [if_pos ((boardChannelList_mem b c).mpr hc), if_pos hc, updateState_isOn]
      · rw [if_neg (fun hmem => hc ((boardChannelList_mem b c).mp hmem)), if_neg hc,
          hwm.1]
    have ih2 := ih s2 (fun b' hb' => by rw [hbc2]; exact h b' (List.mem_cons_of_mem b hb'))
    rw [hstep]
    refine ⟨ih2.1, by rw [ih2.2.1, hbc2], by rw [ih2.2.2.1, hcc2],
      by rw [ih2.2.2.2.1, hin2], fun c => ?_⟩
    rw [ih2.2.2.2.2 c]
    by_cases hct : c / 8 ∈ t
    · simp [hct]
    · rw [if_neg hct, hch2 c]
      by_cases hcb : c / 8 = b
      · simp [hcb, hct]
      · simp [hcb, hct]

/-- Claim C5: `emergencyStop` always yields `isOn(c) = false` for every
channel and writes zero directly to every board's hardware output register
as well as the cached mask, whatever the prior state (including a stale
cache disagreeing with hardware); a successful `allOff` (any initialized,
well-formed driver) returns OK and also yields `isOn(c) = false` for every
channel. -/
theorem claim_C5 (s : SolenoidDriver) (now : Nat) :
    (∀ c, isOn c (emergencyStop now s) = false) ∧
    (∀ b, b < s.boardCount →
      (emergencyStop now s).boardStates b = 0 ∧ (emergencyStop now s).hwPorts b = 0) ∧
    (s.initialized = true → WF s →
      (allOff now s).1 = OK ∧ ∀ c, isOn c (allOff now s).2 = false) := by
  refine ⟨?_, ?_, ?_⟩
  · intro c
    unfold SolenoidDriver.isOn emergencyStop
    set s1 : SolenoidDriver := { s with
      boardStates := fun b => if b < s.boardCount then 0 else s.boardStates b
      hwPorts := fun b => if b < s.boardCount then 0 else s.hwPorts b } with hs1
    have hfm := chFold_misc (fun _ c => updateState now false c) (List.range s.channelCount) s1
    rw [hfm.2.2.2.2.1]
    by_cases hc : c ≥ s1.channelCount
    · rw [if_pos hc]
    · rw [if_neg hc,
        chFold_channels _ _ _ c (List.nodup_range _),
        if_pos (List.mem_range.mpr (Nat.lt_of_not_le hc)), updateState_isOn]
  · intro b hb
    unfold emergencyStop
    set s1 : SolenoidDriver := { s with
      boardStates := fun b => if b < s.boardCount then 0 else s.boardStates b
      hwPorts := fun b => if b < s.boardCount then 0 else s.hwPorts b } with hs1
    have hfm := chFold_misc (fun _ c => updateState now false c) (List.range s.channelCount) s1
    rw [hfm.1, hfm.2.1]
    exact ⟨by simp [hs1, hb], by simp [hs1, hb]⟩
  · intro hinit hwf
    have hloop := allOffLoop_spec now (List.range s.boardCount) s
      (fun b hb => List.mem_range.mp hb)
    have hrun : allOff now s =
        (OK, { (allOffLoop now (List.range s.boardCount) s).2 with lastError := OK }) := by
      unfold allOff
      rw [if_neg (by simp [hinit])]
      simp [hloop.1]
    rw [hrun]
    refine ⟨rfl, fun c => ?_⟩
    show (if c ≥ (allOffLoop now (List.range s.boardCount) s).2.channelCount then false
      else ((allOffLoop now (List.range s.boardCount) s).2.channels c).isOn) = false
    by_cases hc : c ≥ (allOffLoop now (List.range s.boardCount) s).2.channelCount
    · rw [if_pos hc]
    · rw [if_neg hc, hloop.2.2.2.2 c, if_pos]
      rw [List.mem_range]
      rw [hloop.2.2.1] at hc
      have hcc : c < s.channelCount := Nat.lt_of_not_le hc
      rw [hwf.1] at hcc
      unfold CHANNELS_PER_BOARD at hcc
      omega

/-- Witness for claim C5's `allOff` conjunct at a concrete two-board driver
with a channel turned on. -/
theorem claim_C5_witness :
    (let s1 := (turnOn 0 0 (setConfig { maxDutyCycle := ⟨1, 1⟩ }
      (begin (fun _ => true) (fun a => 0x20 + a) 2 init0).2)).2
     (allOff 5 s1).1 = OK ∧ isOn 0 (allOff 5 s1).2 = false ∧
       isOn 0 (emergencyStop 5 s1) = false) := by
  have h := claim_C5
    ((turnOn 0 0 (setConfig { maxDutyCycle := ⟨1, 1⟩ }
      (begin (fun _ => true) (fun a => 0x20 + a) 2 init0).2)).2) 5
  have h3 := h.2.2 (by decide) (by decide)
  exact ⟨h3.1, h3.2 0, h.1 0⟩

end ClaimC5

section ClaimC8

open SolenoidDriver

theorem installBoard_spec (i a : Nat) (s : SolenoidDriver) :
    (installBoard i a s).boardCount = s.boardCount + 1 ∧
    (∀ j, (installBoard i a s).boardAddresses j = if j = i then a else s.boardAddresses j) ∧
    (installBoard i a s).initialized = s.initialized ∧
    (installBoard i a s).channelCount = (s.boardCount + 1) * CHANNELS_PER_BOARD := by
  have hfm := chFold_misc
    (fun g _ => SolenoidChannel.mk0 i (g - i * CHANNELS_PER_BOARD) g)
    ((List.range CHANNELS_PER_BOARD).map (fun ch => i * CHANNELS_PER_BOARD + ch))
    { s with
      hwPorts := fun b => if b = i then 0 else s.hwPorts b
      boardAddresses := fun b => if b = i then a else s.boardAddresses b
      boardStates := fun b => if b = i then 0 else s.boardStates b
      boardCount := s.boardCount + 1 }
  exact ⟨hfm.2.2.2.1, fun j => congrFun hfm.2.2.1 j, hfm.2.2.2.2.2.1,
    congrArg (· * CHANNELS_PER_BOARD) hfm.2.2.2.1⟩

/-- The board loop of `begin` succeeds when the per-board hardware
initialization succeeds for every listed board, and installs each board's
address, the board count, and the refreshed channel count. -/
theorem beginBoards_spec (mcpOk : Nat → Bool) (addrs : Nat → Nat) :
    ∀ (L : List Nat) (s : SolenoidDriver), (∀ i ∈ L, mcpOk i = true) →
    (beginBoards mcpOk addrs L s).1 = true ∧
    (beginBoards mcpOk addrs L s).2.boardCount = s.boardCount + L.length ∧
    (∀ j, (beginBoards mcpOk addrs L s).2.boardAddresses j =
      if j ∈ L then addrs j else s.boardAddresses j) ∧
    (beginBoards mcpOk addrs L s).2.initialized = s.initialized ∧
    (beginBoards mcpOk addrs L s).2.channelCount =
      if L.isEmpty then s.channelCount
      else (s.boardCount + L.length) * CHANNELS_PER_BOARD := by
  intro L
  induction L with
  | nil =>
    intro s _
    exact ⟨rfl, rfl, fun j => by simp [beginBoards], rfl, rfl⟩
  | cons i t ih =>
    intro s h
    have hi : mcpOk i = true := h i (List.mem_cons_self i t)
    have hstep : beginBoards mcpOk addrs (i :: t) s =
        beginBoards mcpOk addrs t (installBoard i (addrs i) s) := by
      simp only [beginBoards]
      simp [hi]
    have hins := installBoard_spec i (addrs i) s
    have iht := ih (installBoard i (addrs i) s) (fun j hj => h j (List.mem_cons_of_mem i hj))
    rw [hstep]
    refine ⟨iht.1, ?_, fun j => ?_, ?_, ?_⟩
    · rw [iht.2.1, hins.1]
      simp
      omega
    · rw [iht.2.2.1 j]
      by_cases hjt : j ∈ t
      · simp [hjt]
      · rw [if_neg hjt, hins.2.1 j]
        by_cases hji : j = i
        · simp [hji]
        · simp [hji, hjt]
    · rw [iht.2.2.2.1, hins.2.2.1]
    · rw [iht.2.2.2.2, hins.2.2.2, hins.1]
      cases t with
      | nil => simp
      | cons x xs =>
        simp only [List.isEmpty_cons, Bool.false_eq_true, if_false, List.length_cons]
        congr 1
        omega

/-- Claim C8: a successful `begin` with `1 ≤ N ≤ 8` board addresses all in
0x20–0x27 yields `getChannelCount() = 8*N` and reports each board's address
in input order; a count of 0 or more than 8, or any address out of range,
makes `begin` fail with INVALID_BOARD. -/
theorem claim_C8 (mcpOk : Nat → Bool) (addrs : Nat → Nat) (N : Nat) (s : SolenoidDriver) :
    ((1 ≤ N ∧ N ≤ MAX_BOARDS) →
      (∀ i, i < N → BASE_ADDRESS ≤ addrs i ∧ addrs i ≤ MAX_ADDRESS) →
      (∀ i, i < N → mcpOk i = true) →
      (begin mcpOk addrs N s).1 = true ∧
      getChannelCount (begin mcpOk addrs N s).2 = 8 * N ∧
      (begin mcpOk addrs N s).2.initialized = true ∧
      (∀ i, i < N → getBoardAddress i (begin mcpOk addrs N s).2 = addrs i)) ∧
    ((N = 0 ∨ N > MAX_BOARDS) →
      (begin mcpOk addrs N s).1 = false ∧
      (begin mcpOk addrs N s).2.lastError = INVALID_BOARD) ∧
    (N ≤ MAX_BOARDS →
      ∀ i, i < N → (addrs i < BASE_ADDRESS ∨ addrs i > MAX_ADDRESS) →
      (begin mcpOk addrs N s).1 = false ∧
      (begin mcpOk addrs N s).2.lastError = INVALID_BOARD) := by
  refine ⟨?_, ?_, ?_⟩
  · intro hN haddr hok
    have hc1 : ¬ (N = 0 ∨ N > MAX_BOARDS) := by
      push_neg
      omega
    have hc2 : ¬ ((List.range N).any
        (fun i => addrs i < BASE_ADDRESS ∨ addrs i > MAX_ADDRESS) = true) := by
      simp only [List.any_eq_true, List.mem_range, not_exists, not_and]
      intro i hi
      have h := haddr i hi
      simp only [decide_eq_true_eq]
      omega
    set s0 : SolenoidDriver :=
      { s with boardCount := 0, channelCount := 0, initialized := false } with hs0
    have hbb := beginBoards_spec mcpOk addrs (List.range N) s0
      (fun i hi => hok i (List.mem_range.mp hi))
    have hrun : begin mcpOk addrs N s =
        (true, { (beginBoards mcpOk addrs (List.range N) s0).2 with
          initialized := true, lastError := OK }) := by
      unfold SolenoidDriver.begin
      rw [if_neg hc1, if_neg hc2]
      simp only [hbb.1]
      simp
    rw [hrun]
    have hne : ¬ (List.range N).isEmpty := by
      simp [List.isEmpty_iff, List.range_eq_nil]
      omega
    refine ⟨rfl, ?_, rfl, fun i hi => ?_⟩
    · show (beginBoards mcpOk addrs (List.range N) s0).2.channelCount = 8 * N
      rw [hbb.2.2.2.2, if_neg hne]
      simp [hs0, List.length_range, CHANNELS_PER_BOARD]
      ring
    · show getBoardAddress i
        { (beginBoards mcpOk addrs (List.range N) s0).2 with
          initialized := true, lastError := OK } = addrs i
      unfold getBoardAddress
      rw [if_neg, ]
      · show (beginBoards mcpOk addrs (List.range N) s0).2.boardAddresses i = addrs i
        rw [hbb.2.2.1 i, if_pos (List.mem_range.mpr hi)]
      · show ¬ i ≥ (beginBoards mcpOk addrs (List.range N) s0).2.boardCount
        rw [hbb.2.1]
        simp [hs0, List.length_range]
        omega
  · intro hbad
    unfold SolenoidDriver.begin
    rw [if_pos hbad]
    exact ⟨rfl, rfl⟩
  · intro hN i hi hout
    have hc1 : ¬ (N = 0 ∨ N > MAX_BOARDS) := by
      push_neg
      omega
    have hc2 : (List.range N).any
        (fun i => addrs i < BASE_ADDRESS ∨ addrs i > MAX_ADDRESS) = true := by
      simp only [List.any_eq_true, List.mem_range]
      exact ⟨i, hi, by simpa using hout⟩
    unfold SolenoidDriver.begin
    rw [if_neg hc1, if_pos hc2]
    exact ⟨rfl, rfl⟩

/-- Witness for claim C8 at concrete inputs: a successful three-board
initialization, a failing zero-board call, and a failing out-of-range
address. -/
theorem claim_C8_witness :
    ((begin (fun _ => true) (fun a => 0x20 + a) 3 init0).1 = true ∧
      getChannelCount (begin (fun _ => true) (fun a => 0x20 + a) 3 init0).2 = 24 ∧
      getBoardAddress 2 (begin (fun _ => true) (fun a => 0x20 + a) 3 init0).2 = 0x22) ∧
    (begin (fun _ => true) (fun a => 0x20 + a) 0 init0).1 = false ∧
    ((begin (fun _ => true) (fun _ => 0x30) 2 init0).1 = false ∧
      (begin (fun _ => true) (fun _ => 0x30) 2 init0).2.lastError = INVALID_BOARD) := by
  have h := claim_C8 (fun _ => true) (fun a => 0x20 + a) 3 init0
  have h0 := claim_C8 (fun _ => true) (fun a => 0x20 + a) 0 init0
  have hb := claim_C8 (fun _ => true) (fun _ => 0x30) 2 init0
  have hsucc := h.1 (by decide)
    (fun i hi => by simp only [BASE_ADDRESS, MAX_ADDRESS]; omega) (fun i _ => rfl)
  refine ⟨⟨hsucc.1, ?_, ?_⟩, ?_, ?_⟩
  · rw [hsucc.2.1]
  · rw [hsucc.2.2.2 2 (by decide)]
  · exact (h0.2.1 (Or.inl rfl)).1
  · exact hb.2.2 (by decide) 0 (by decide) (by decide)

end ClaimC8

section SafetyLemmas

open SolenoidChannel SolenoidDriver

theorem safeVerdict_snd_preserves (cfg : SolenoidConfig) (now : Nat) (c : SolenoidChannel) :
    (safeVerdict cfg now c).2.1.isOn = c.isOn ∧
    (safeVerdict cfg now c).2.1.lastOnTime = c.lastOnTime ∧
    (safeVerdict cfg now c).2.1.lastOffTime = c.lastOffTime := by
  unfold safeVerdict
  by_cases h1 : cfg.minOffTimeMs > 0 ∧ timeSinceOff now c < cfg.minOffTimeMs
  · rw [if_pos h1]
    exact ⟨rfl, rfl, rfl⟩
  · rw [if_neg h1]
    by_cases h2 : ¬ cfg.maxDutyCycle.geOne = true ∧ cfg.dutyCycleWindowMs > 0
    · rw [if_pos h2]
      have hp := getDutyCyclePercent_preserves cfg.dutyCycleWindowMs now c
      dsimp only
      split_ifs <;> exact hp
    · rw [if_neg h2]
      exact ⟨rfl, rfl, rfl⟩

theorem safeVerdict_deny_err (cfg : SolenoidConfig) (now : Nat) (c : SolenoidChannel)
    (h : (safeVerdict cfg now c).1 = false) :
    (safeVerdict cfg now c).2.2 = SAFETY_COOLDOWN ∨
    (safeVerdict cfg now c).2.2 = DUTY_CYCLE_EXCEEDED := by
  unfold safeVerdict at h ⊢
  by_cases h1 : cfg.minOffTimeMs > 0 ∧ timeSinceOff now c < cfg.minOffTimeMs
  · rw [if_pos h1]
    exact Or.inl rfl
  · rw [if_neg h1] at h ⊢
    by_cases h2 : ¬ cfg.maxDutyCycle.geOne = true ∧ cfg.dutyCycleWindowMs > 0
    · rw [if_pos h2] at h ⊢
      dsimp only at h ⊢
      split_ifs at h ⊢ <;> simp_all
    · rw [if_neg h2] at h
      simp at h

theorem isSafeToActivate_misc (now ch : Nat) (s : SolenoidDriver) :
    (isSafeToActivate now ch s).2.boardStates = s.boardStates ∧
    (isSafeToActivate now ch s).2.hwPorts = s.hwPorts ∧
    (isSafeToActivate now ch s).2.boardAddresses = s.boardAddresses ∧
    (isSafeToActivate now ch s).2.boardCount = s.boardCount ∧
    (isSafeToActivate now ch s).2.channelCount = s.channelCount ∧
    (isSafeToActivate now ch s).2.initialized = s.initialized ∧
    (isSafeToActivate now ch s).2.config = s.config ∧
    (∀ j, ((isSafeToActivate now ch s).2.channels j).isOn = (s.channels j).isOn) := by
  unfold isSafeToActivate
  by_cases hch : ch ≥ s.channelCount
  · rw [if_pos hch]
    exact ⟨rfl, rfl, rfl, rfl, rfl, rfl, rfl, fun _ => rfl⟩
  · rw [if_neg hch]
    dsimp only
    have hiso : ∀ j, ((setChannel ch (safeVerdict s.config now (s.channels ch)).2.1 s).channels j).isOn
        = (s.channels j).isOn := by
      intro j
      rw [setChannel_channels]
      by_cases hj : j = ch
      · rw [if_pos hj, (safeVerdict_snd_preserves s.config now (s.channels ch)).1, hj]
      · rw [if_neg hj]
    split_ifs
    · exact ⟨rfl, rfl, rfl, rfl, rfl, rfl, rfl, hiso⟩
    · exact ⟨rfl, rfl, rfl, rfl, rfl, rfl, rfl, hiso⟩

theorem isSafeToActivate_deny_lastError (now ch : Nat) (s : SolenoidDriver)
    (hch : ch < s.channelCount) (hf : (isSafeToActivate now ch s).1 = false) :
    (isSafeToActivate now ch s).2.lastError = SAFETY_COOLDOWN ∨
    (isSafeToActivate now ch s).2.lastError = DUTY_CYCLE_EXCEEDED := by
  unfold isSafeToActivate at hf ⊢
  rw [if_neg (Nat.not_le.mpr hch)] at hf ⊢
  dsimp only at hf ⊢
  by_cases hv : (safeVerdict s.config now (s.channels ch)).1 = true
  · rw [if_pos hv] at hf
    simp at hf
  · rw [if_neg hv]
    have := safeVerdict_deny_err s.config now (s.channels ch) (Bool.eq_false_iff.mpr hv)
    rcases this with h | h
    · exact Or.inl (by simp [reportError, h])
    · exact Or.inr (by simp [reportError, h])

end SafetyLemmas

section ClaimC7

open SolenoidChannel SolenoidDriver

theorem turnOn_misc (now ch : Nat) (s : SolenoidDriver) :
    (turnOn now ch s).2.boardCount = s.boardCount ∧
    (turnOn now ch s).2.channelCount = s.channelCount ∧
    (turnOn now ch s).2.initialized = s.initialized ∧
    (turnOn now ch s).2.config = s.config := by
  unfold turnOn
  dsimp only
  split_ifs <;>
    simp [setChannel, reportError, writeChannel_misc, isSafeToActivate_misc]

/-- After `begin`, `on` can never report an I2C error: `writeChannel` only
fails on an out-of-range board/pin, which a valid channel index excludes. -/
theorem turnOn_ne_I2C (now ch : Nat) (s : SolenoidDriver)
    (hwf : s.channelCount ≤ CHANNELS_PER_BOARD * s.boardCount) :
    (turnOn now ch s).1 ≠ I2C_COMMUNICATION := by
  unfold turnOn
  dsimp only
  by_cases h1 : ¬ s.initialized = true
  · rw [if_pos h1]
    simp
  · rw [if_neg h1]
    by_cases h2 : ch ≥ s.channelCount
    · rw [if_pos h2]
      simp
    · rw [if_neg h2]
      by_cases h3 : (s.channels ch).isOn = true
      · rw [if_pos h3]
        simp
      · rw [if_neg h3]
        have hwrite : ∀ t : SolenoidDriver, t.boardCount = s.boardCount →
            (writeChannel (globalToLocal ch).1 (globalToLocal ch).2 true t).1 = true := by
          intro t hbc
          apply writeChannel_fst
          · rw [hbc]
            unfold globalToLocal
            unfold CHANNELS_PER_BOARD at hwf ⊢
            omega
          · unfold globalToLocal CHANNELS_PER_BOARD
            omega
        by_cases h4 : s.config.safetyEnabled = true
        · rw [if_pos h4]
          by_cases h5 : ¬ (isSafeToActivate now ch s).1 = true
          · rw [if_pos h5]
            have := isSafeToActivate_deny_lastError now ch s (Nat.lt_of_not_le h2)
              (Bool.eq_false_iff.mpr (fun hq => h5 hq))
            rcases this with h | h <;> simp [h]
          · rw [if_neg h5]
            rw [hwrite (isSafeToActivate now ch s).2 (isSafeToActivate_misc now ch s).2.2.2.1]
            simp
        · rw [if_neg h4]
          rw [hwrite s rfl]
          simp

/-- Reference semantics for "call `on` on every listed channel in order,
never stopping": the list of per-channel results and the final state. -/
def onSeq (now : Nat) : List Nat → SolenoidDriver → List SolenoidError × SolenoidDriver
  | [], s => ([], s)
  | ch :: rest, s =>
    let r := turnOn now ch s
    let q := onSeq now rest r.2
    (r.1 :: q.1, q.2)

theorem onSeq_length (now : Nat) : ∀ (L : List Nat) (s : SolenoidDriver),
    (onSeq now L s).1.length = L.length := by
  intro L
  induction L with
  | nil => intro s; rfl
  | cons ch rest ih => intro s; simp [onSeq, ih]

theorem onSeq_misc (now : Nat) : ∀ (L : List Nat) (s : SolenoidDriver),
    (onSeq now L s).2.boardCount = s.boardCount ∧
    (onSeq now L s).2.channelCount = s.channelCount ∧
    (onSeq now L s).2.initialized = s.initialized ∧
    (onSeq now L s).2.config = s.config := by
  intro L
  induction L with
  | nil => intro s; exact ⟨rfl, rfl, rfl, rfl⟩
  | cons ch rest ih =>
    intro s
    have h1 := turnOn_misc now ch s
    have h2 := ih (turnOn now ch s).2
    exact ⟨h2.1.trans h1.1, h2.2.1.trans h1.2.1, h2.2.2.1.trans h1.2.2.1,
      h2.2.2.2.trans h1.2.2.2⟩

theorem onSeq_ne_I2C (now : Nat) : ∀ (L : List Nat) (s : SolenoidDriver),
    s.channelCount ≤ CHANNELS_PER_BOARD * s.boardCount →
    ∀ e ∈ (onSeq now L s).1, e ≠ I2C_COMMUNICATION := by
  intro L
  induction L with
  | nil => intro s _ e he; cases he
  | cons ch rest ih =>
    intro s hwf e he
    rw [show (onSeq now (ch :: rest) s).1 =
      (turnOn now ch s).1 :: (onSeq now rest (turnOn now ch s).2).1 from rfl] at he
    rcases List.mem_cons.mp he with h | h
    · rw [h]
      exact turnOn_ne_I2C now ch s hwf
    · have hm := turnOn_misc now ch s
      exact ih (turnOn now ch s).2 (by rw [hm.1, hm.2.1]; exact hwf) e h

/-- The `allOn` loop never takes its I2C abort path and computes exactly the
failed-count and first-error bookkeeping over the full sequential run. -/
theorem allOnLoop_spec (now : Nat) : ∀ (L : List Nat) (s : SolenoidDriver)
    (failed : Nat) (first : SolenoidError),
    s.channelCount ≤ CHANNELS_PER_BOARD * s.boardCount →
    allOnLoop now L s failed first =
      (none, (onSeq now L s).2,
        failed + ((onSeq now L s).1.filter (fun e => e ≠ OK)).length,
        if first = OK then ((onSeq now L s).1.find? (fun e => e ≠ OK)).getD OK
        else first) := by
  intro L
  induction L with
  | nil =>
    intro s failed first _
    simp only [allOnLoop, onSeq, List.filter_nil, List.length_nil, List.find?_nil,
      Option.getD_none, Nat.add_zero]
    by_cases h : first = OK <;> simp [h]
  | cons ch rest ih =>
    intro s failed first hwf
    have hm := turnOn_misc now ch s
    have hwf2 : (turnOn now ch s).2.channelCount ≤
        CHANNELS_PER_BOARD * (turnOn now ch s).2.boardCount := by
      rw [hm.1, hm.2.1]
      exact hwf
    have hni : (turnOn now ch s).1 ≠ I2C_COMMUNICATION := turnOn_ne_I2C now ch s hwf
    have hseq : onSeq now (ch :: rest) s =
        ((turnOn now ch s).1 :: (onSeq now rest (turnOn now ch s).2).1,
          (onSeq now rest (turnOn now ch s).2).2) := rfl
    rw [hseq]
    by_cases hok : (turnOn now ch s).1 = OK
    · have hstep : allOnLoop now (ch :: rest) s failed first =
          allOnLoop now rest (turnOn now ch s).2 failed first := by
        simp only [allOnLoop]
        simp [hok]
      rw [hstep, ih (turnOn now ch s).2 failed first hwf2]
      simp [hok]
    · have hstep : allOnLoop now (ch :: rest) s failed first =
          allOnLoop now rest (turnOn now ch s).2 (failed + 1)
            (if first = OK then (turnOn now ch s).1 else first) := by
        simp only [allOnLoop]
        simp [hok, hni]
      rw [hstep, ih (turnOn now ch s).2 (failed + 1) _ hwf2]
      simp only [Prod.mk.injEq, true_and]
      refine ⟨?_, ?_⟩
      · rw [List.filter_cons_of_pos (by simpa using hok)]
        simp only [List.length_cons]
        omega
      · rw [List.find?_cons_of_pos _ (by simpa using hok)]
        by_cases hfirst : first = OK
        · simp [hfirst, hok]
        · simp [hfirst]

/-- Claim C7: `allOn` iterates over all channels calling `on` individually
(the result list has one entry per channel and the final state is that of
the full sequential run — per-channel safety denials never stop the
iteration); the value returned when any channel failed is the first
non-OK error of the run; and no `on` call on an initialized well-formed
driver can return the hardware-communication error, so the loop's immediate
I2C abort branch never cuts the iteration short. -/
theorem claim_C7 (now : Nat) (s : SolenoidDriver) (hwf : WF s)
    (hinit : s.initialized = true) :
    (onSeq now (List.range s.channelCount) s).1.length = s.channelCount ∧
    (∀ e ∈ (onSeq now (List.range s.channelCount) s).1, e ≠ I2C_COMMUNICATION) ∧
    allOn now s =
      (if 0 < ((onSeq now (List.range s.channelCount) s).1.filter
          (fun e => e ≠ OK)).length
        then (((onSeq now (List.range s.channelCount) s).1.find?
            (fun e => e ≠ OK)).getD OK,
          (onSeq now (List.range s.channelCount) s).2)
        else (OK, { (onSeq now (List.range s.channelCount) s).2 with
          lastError := OK })) := by
  have hwle : s.channelCount ≤ CHANNELS_PER_BOARD * s.boardCount := hwf.1.le
  refine ⟨by rw [onSeq_length, List.length_range],
    onSeq_ne_I2C now (List.range s.channelCount) s hwle, ?_⟩
  unfold allOn
  rw [if_neg (by simp [hinit]),
    allOnLoop_spec now (List.range s.channelCount) s 0 OK hwle]
  simp only [Nat.zero_add, if_pos rfl]
  rfl

/-- Witness for claim C7: a freshly initialized one-board driver with duty
limiting disabled; all eight `on` calls succeed and `allOn` returns OK. -/
theorem claim_C7_witness :
    (let sW := setConfig { maxDutyCycle := ⟨1, 1⟩ }
      (begin (fun _ => true) (fun _ => 0x20) 1 init0).2
     WF sW ∧ sW.initialized = true ∧ (allOn 0 sW).1 = OK) := by
  refine ⟨by decide, by decide, ?_⟩
  have h := (claim_C7 0 (setConfig { maxDutyCycle := ⟨1, 1⟩ }
    (begin (fun _ => true) (fun _ => 0x20) 1 init0).2) (by decide) (by decide)).2.2
  rw [h]
  decide

end ClaimC7

section BitLemmas

open SolenoidDriver

theorem one_shiftLeft_eq (p : Nat) : (1 : Nat) <<< p = 2 ^ p := by
  rw [Nat.shiftLeft_eq, Nat.one_mul]

theorem testBit_bitSet (x p q : Nat) :
    (bitSet x p).testBit q = if q = p then true else x.testBit q := by
  unfold bitSet
  rw [Nat.testBit_or, one_shiftLeft_eq]
  by_cases h : q = p
  · subst h
    rw [Nat.testBit_two_pow_self]
    simp
  · rw [Nat.testBit_two_pow_of_ne (fun hh => h hh.symm)]
    simp [h]

theorem testBit_bitClear (x p q : Nat) (hq : q < 8) :
    (bitClear x p).testBit q = if q = p then false else x.testBit q := by
  unfold bitClear
  rw [Nat.testBit_and, Nat.testBit_xor, one_shiftLeft_eq,
    show (255 : Nat) = 2 ^ 8 - 1 from rfl, Nat.testBit_two_pow_sub_one]
  by_cases h : q = p
  · subst h
    rw [Nat.testBit_two_pow_self]
    simp [hq]
  · rw [Nat.testBit_two_pow_of_ne (fun hh => h hh.symm)]
    simp [h, hq]

theorem writeChannel_sets (b p : Nat) (st : Bool) (s : SolenoidDriver)
    (hb : b < s.boardCount) (hp : p < CHANNELS_PER_BOARD) (j : Nat) :
    ((writeChannel b p st s).2.boardStates j =
      if j = b then (if st then bitSet (s.boardStates b) p else bitClear (s.boardStates b) p)
      else s.boardStates j) ∧
    ((writeChannel b p st s).2.hwPorts j =
      if j = b then (if st then bitSet (s.hwPorts b) p else bitClear (s.hwPorts b) p)
      else s.hwPorts j) := by
  unfold writeChannel
  rw [if_neg (by push_neg; exact ⟨hb, hp⟩)]
  cases st <;> constructor <;> (dsimp only; split <;> simp_all)

end BitLemmas

section ClaimC1

open SolenoidChannel SolenoidDriver

/-- The firing condition of the timeout sweep for one channel. -/
def timedOut (now : Nat) (s : SolenoidDriver) (ch : Nat) : Prop :=
  (s.channels ch).isOn = true ∧ 0 < s.config.maxOnTimeMs ∧
    s.config.maxOnTimeMs ≤ onDuration now (s.channels ch)

instance (now : Nat) (s : SolenoidDriver) (ch : Nat) : Decidable (timedOut now s ch) := by
  unfold timedOut
  infer_instance

theorem sweepStep_of_not (now : Nat) (s : SolenoidDriver) (ch : Nat)
    (h : ¬ timedOut now s ch) : sweepStep now s ch = s := by
  unfold timedOut at h
  unfold sweepStep
  by_cases h1 : (s.channels ch).isOn = true
  · rw [if_pos h1]
    by_cases h2 : 0 < s.config.maxOnTimeMs
    · rw [if_pos h2]
      rw [if_neg (fun h3 => h ⟨h1, h2, h3⟩)]
    · rw [if_neg h2]
  · rw [if_neg h1]

theorem sweepStep_of_timedOut (now : Nat) (s : SolenoidDriver) (ch : Nat)
    (h : timedOut now s ch) :
    sweepStep now s ch = reportError SAFETY_TIMEOUT ch
      (setChannel ch (updateState now false (s.channels ch))
        (writeChannel (ch / 8) (ch % 8) false s).2) := by
  unfold sweepStep
  rw [if_pos h.1, if_pos h.2.1, if_pos h.2.2]
  show reportError SAFETY_TIMEOUT ch
      (setChannel ch (updateState now false
        ((writeChannel (ch / 8) (ch % 8) false s).2.channels ch))
        (writeChannel (ch / 8) (ch % 8) false s).2) = _
  rw [(writeChannel_misc (ch / 8) (ch % 8) false s).1]

theorem sweepStep_frame (now : Nat) (s : SolenoidDriver) (ch c : Nat) (hne : c ≠ ch) :
    (sweepStep now s ch).channels c = s.channels c := by
  by_cases h : timedOut now s ch
  · rw [sweepStep_of_timedOut now s ch h, (reportError_misc _ _ _).1,
      setChannel_channels, if_neg hne, (writeChannel_misc (ch / 8) (ch % 8) false s).1]
  · rw [sweepStep_of_not now s ch h]

theorem sweepStep_misc (now : Nat) (s : SolenoidDriver) (ch : Nat) :
    (sweepStep now s ch).boardCount = s.boardCount ∧
    (sweepStep now s ch).channelCount = s.channelCount ∧
    (sweepStep now s ch).initialized = s.initialized ∧
    (sweepStep now s ch).config = s.config := by
  by_cases h : timedOut now s ch
  · rw [sweepStep_of_timedOut now s ch h]
    have hw := writeChannel_misc (ch / 8) (ch % 8) false s
    exact ⟨hw.2.2.1, hw.2.2.2.1, hw.2.2.2.2.1, hw.2.2.2.2.2.1⟩
  · rw [sweepStep_of_not now s ch h]
    exact ⟨rfl, rfl, rfl, rfl⟩

theorem sweepStep_events (now : Nat) (s : SolenoidDriver) (ch : Nat) :
    (sweepStep now s ch).events = s.events ∨
    (sweepStep now s ch).events = s.events ++ [(SAFETY_TIMEOUT, ch)] := by
  by_cases h : timedOut now s ch
  · right
    rw [sweepStep_of_timedOut now s ch h,
      (reportError_misc _ _ _).2.2.2.2.2.2.2.2.2,
      (setChannel_misc _ _ _).2.2.2.2.2.2.2.2,
      (writeChannel_misc _ _ _ _).2.2.2.2.2.2.2]
  · left
    rw [sweepStep_of_not now s ch h]

theorem sweepStep_bit_frame (now : Nat) (s : SolenoidDriver) (ch c : Nat) (hne : c ≠ ch) :
    ((sweepStep now s ch).boardStates (c / 8)).testBit (c % 8) =
      (s.boardStates (c / 8)).testBit (c % 8) ∧
    ((sweepStep now s ch).hwPorts (c / 8)).testBit (c % 8) =
      (s.hwPorts (c / 8)).testBit (c % 8) := by
  by_cases h : timedOut now s ch
  · rw [sweepStep_of_timedOut now s ch h, (reportError_misc _ _ _).2.1,
      (reportError_misc _ _ _).2.2.1, (setChannel_misc _ _ _).1,
      (setChannel_misc _ _ _).2.1]
    unfold writeChannel
    by_cases hrange : ch / 8 ≥ s.boardCount ∨ ch % 8 ≥ CHANNELS_PER_BOARD
    · rw [if_pos hrange]
      exact ⟨rfl, rfl⟩
    · rw [if_neg hrange]
      dsimp only
      constructor
      · by_cases hb : c / 8 = ch / 8
        · rw [if_pos hb]
          simp only [Bool.false_eq_true, if_false]
          rw [testBit_bitClear _ _ _ (Nat.mod_lt c (by omega)),
            if_neg (by omega), hb]
        · rw [if_neg hb]
      · by_cases hb : c / 8 = ch / 8
        · rw [if_pos hb]
          simp only [Bool.false_eq_true, if_false]
          rw [testBit_bitClear _ _ _ (Nat.mod_lt c (by omega)),
            if_neg (by omega), hb]
        · rw [if_neg hb]
  · rw [sweepStep_of_not now s ch h]
    exact ⟨rfl, rfl⟩

theorem sweepFold_misc (now : Nat) : ∀ (L : List Nat) (s : SolenoidDriver),
    ((L.foldl (sweepStep now) s).boardCount = s.boardCount) ∧
    ((L.foldl (sweepStep now) s).channelCount = s.channelCount) ∧
    ((L.foldl (sweepStep now) s).initialized = s.initialized) ∧
    ((L.foldl (sweepStep now) s).config = s.config) := by
  intro L
  induction L with
  | nil => intro s; exact ⟨rfl, rfl, rfl, rfl⟩
  | cons a t ih =>
    intro s
    have h1 := sweepStep_misc now s a
    have h2 := ih (sweepStep now s a)
    exact ⟨h2.1.trans h1.1, h2.2.1.trans h1.2.1, h2.2.2.1.trans h1.2.2.1,
      h2.2.2.2.trans h1.2.2.2⟩

theorem sweepFold_miss (now : Nat) : ∀ (L : List Nat) (s : SolenoidDriver) (c : Nat),
    c ∉ L →
    ((L.foldl (sweepStep now) s).channels c = s.channels c) ∧
    (((L.foldl (sweepStep now) s).boardStates (c / 8)).testBit (c % 8) =
      (s.boardStates (c / 8)).testBit (c % 8)) ∧
    (((L.foldl (sweepStep now) s).hwPorts (c / 8)).testBit (c % 8) =
      (s.hwPorts (c / 8)).testBit (c % 8)) ∧
    (∃ tl, (L.foldl (sweepStep now) s).events = s.events ++ tl ∧
      tl.count (SAFETY_TIMEOUT, c) = 0) := by
  intro L
  induction L with
  | nil =>
    intro s c _
    exact ⟨rfl, rfl, rfl, [], by simp⟩
  | cons a t ih =>
    intro s c hc
    have hca : c ≠ a := fun h => hc (h ▸ List.mem_cons_self a t)
    have hct : c ∉ t := fun h => hc (List.mem_cons_of_mem a h)
    have h1f := sweepStep_frame now s a c hca
    have h1b := sweepStep_bit_frame now s a c hca
    have h1e := sweepStep_events now s a
    have h2 := ih (sweepStep now s a) c hct
    simp only [List.foldl_cons]
    refine ⟨h2.1.trans h1f, h2.2.1.trans h1b.1, h2.2.2.1.trans h1b.2, ?_⟩
    obtain ⟨tl, htl, hcount⟩ := h2.2.2.2
    rcases h1e with he | he
    · exact ⟨tl, by rw [htl, he], hcount⟩
    · refine ⟨(SAFETY_TIMEOUT, a) :: tl, ?_, ?_⟩
      · rw [htl, he]
        simp
      · rw [List.count_cons, hcount]
        simp [hca.symm]

theorem sweepFold_offstay (now : Nat) : ∀ (L : List Nat) (s : SolenoidDriver) (c : Nat),
    (s.channels c).isOn = false →
    ((L.foldl (sweepStep now) s).channels c = s.channels c) ∧
    (∃ tl, (L.foldl (sweepStep now) s).events = s.events ++ tl ∧
      tl.count (SAFETY_TIMEOUT, c) = 0) := by
  intro L
  induction L with
  | nil =>
    intro s c _
    exact ⟨rfl, [], by simp⟩
  | cons a t ih =>
    intro s c hoff
    by_cases hca : c = a
    · subst hca
      have hid : sweepStep now s c = s :=
        sweepStep_of_not now s c (fun ht => by rw [ht.1] at hoff; cases hoff)
      have h2 := ih (sweepStep now s c) c (by rw [hid]; exact hoff)
      rw [show (c :: t).foldl (sweepStep now) s = t.foldl (sweepStep now) (sweepStep now s c)
        from rfl]
      refine ⟨h2.1.trans (by rw [hid]), ?_⟩
      obtain ⟨tl, htl, hcount⟩ := h2.2
      exact ⟨tl, by rw [htl, hid], hcount⟩
    · have h1f := sweepStep_frame now s a c hca
      have h1e := sweepStep_events now s a
      have h2 := ih (sweepStep now s a) c (by rw [h1f]; exact hoff)
      simp only [List.foldl_cons]
      refine ⟨h2.1.trans h1f, ?_⟩
      obtain ⟨tl, htl, hcount⟩ := h2.2
      rcases h1e with he | he
      · exact ⟨tl, by rw [htl, he], hcount⟩
      · refine ⟨(SAFETY_TIMEOUT, a) :: tl, ?_, ?_⟩
        · rw [htl, he]
          simp
        · rw [List.count_cons, hcount]
          simp [show a ≠ c from fun h => hca h.symm]

theorem sweepFold_hit (now : Nat) : ∀ (L : List Nat) (s : SolenoidDriver) (c : Nat),
    L.Nodup → c ∈ L → c < 8 * s.boardCount → timedOut now s c →
    (((L.foldl (sweepStep now) s).channels c).isOn = false) ∧
    (((L.foldl (sweepStep now) s).boardStates (c / 8)).testBit (c % 8) = false) ∧
    (((L.foldl (sweepStep now) s).hwPorts (c / 8)).testBit (c % 8) = false) ∧
    (∃ tl, (L.foldl (sweepStep now) s).events = s.events ++ tl ∧
      tl.count (SAFETY_TIMEOUT, c) = 1) := by
  intro L
  induction L with
  | nil =>
    intro s c _ hc
    cases hc
  | cons a t ih =>
    intro s c hnd hc hbound htime
    rw [List.nodup_cons] at hnd
    rw [show (a :: t).foldl (sweepStep now) s = t.foldl (sweepStep now) (sweepStep now s a)
      from rfl]
    by_cases hca : c = a
    · subst hca
      have hfire := sweepStep_of_timedOut now s c htime
      have hwcs := writeChannel_sets (c / 8) (c % 8) false s
        (by omega) (by unfold CHANNELS_PER_BOARD; omega) (c / 8)
      have hchan : (sweepStep now s c).channels c =
          updateState now false (s.channels c) := by
        rw [hfire, (reportError_misc _ _ _).1, setChannel_channels, if_pos rfl]
      have hbit : ((sweepStep now s c).boardStates (c / 8)).testBit (c % 8) = false ∧
          ((sweepStep now s c).hwPorts (c / 8)).testBit (c % 8) = false := by
        rw [hfire, (reportError_misc _ _ _).2.1, (reportError_misc _ _ _).2.2.1,
          (setChannel_misc _ _ _).1, (setChannel_misc _ _ _).2.1, hwcs.1, hwcs.2,
          if_pos rfl, if_pos rfl]
        simp only [Bool.false_eq_true, if_false]
        rw [testBit_bitClear _ _ _ (Nat.mod_lt c (by omega)), if_pos rfl,
          testBit_bitClear _ _ _ (Nat.mod_lt c (by omega)), if_pos rfl]
        exact ⟨rfl, rfl⟩
      have hev : (sweepStep now s c).events = s.events ++ [(SAFETY_TIMEOUT, c)] := by
        rw [hfire, (reportError_misc _ _ _).2.2.2.2.2.2.2.2.2,
          (setChannel_misc _ _ _).2.2.2.2.2.2.2.2,
          (writeChannel_misc _ _ _ _).2.2.2.2.2.2.2]
      have hmiss := sweepFold_miss now t (sweepStep now s c) c hnd.1
      refine ⟨?_, ?_, ?_, ?_⟩
      · rw [hmiss.1, hchan, updateState_isOn]
      · rw [hmiss.2.1, hbit.1]
      · rw [hmiss.2.2.1, hbit.2]
      · obtain ⟨tl, htl, hcount⟩ := hmiss.2.2.2
        refine ⟨(SAFETY_TIMEOUT, c) :: tl, ?_, ?_⟩
        · rw [htl, hev]
          simp
        · rw [List.count_cons, hcount]
          simp
    · have h1f := sweepStep_frame now s a c (fun h => hca h)
      have h1m := sweepStep_misc now s a
      have h1e := sweepStep_events now s a
      have htime2 : timedOut now (sweepStep now s a) c := by
        unfold timedOut at htime ⊢
        rw [h1f, h1m.2.2.2]
        exact htime
      have hct : c ∈ t := by
        rcases List.mem_cons.mp hc with h | h
        · exact absurd h hca
        · exact h
      have ih2 := ih (sweepStep now s a) c hnd.2 hct (by rw [h1m.1]; exact hbound) htime2
      refine ⟨ih2.1, ih2.2.1, ih2.2.2.1, ?_⟩
      obtain ⟨tl, htl, hcount⟩ := ih2.2.2.2
      rcases h1e with he | he
      · exact ⟨tl, by rw [htl, he], hcount⟩
      · refine ⟨(SAFETY_TIMEOUT, a) :: tl, ?_, ?_⟩
        · rw [htl, he]
          simp
        · rw [List.count_cons, hcount]
          simp [show a ≠ c from fun h => hca h.symm]

/-- Claim C1: on an initialized driver, if channel `c` is on with
`onDuration ≥ maxOnTimeMs > 0`, the next `update()` forces it off — the
channel state becomes off and the cached mask bit and the hardware register
bit are cleared — and reports SAFETY_TIMEOUT for `c` exactly once; this
happens for either value of the `safetyEnabled` flag (the state is taken
with the flag overridden by an arbitrary `sf`), and a further `update()` at
any later instant reports no SAFETY_TIMEOUT for `c` again. -/
theorem claim_C1 (s : SolenoidDriver) (now c : Nat) (sf : Bool)
    (hwf : WF s) (hinit : s.initialized = true)
    (hmax : 0 < s.config.maxOnTimeMs) (hc : c < s.channelCount)
    (hon : (s.channels c).isOn = true)
    (hdur : s.config.maxOnTimeMs ≤ SolenoidChannel.onDuration now (s.channels c)) :
    (((update now { s with config := { s.config with safetyEnabled := sf } }).channels
        c).isOn = false) ∧
    (((update now { s with config := { s.config with safetyEnabled := sf } }).boardStates
        (c / 8)).testBit (c % 8) = false) ∧
    (((update now { s with config := { s.config with safetyEnabled := sf } }).hwPorts
        (c / 8)).testBit (c % 8) = false) ∧
    (∃ tl, (update now { s with config := { s.config with safetyEnabled := sf } }).events =
        s.events ++ tl ∧ tl.count (SAFETY_TIMEOUT, c) = 1) ∧
    (∀ now2, ∃ tl2,
      (update now2 (update now { s with config :=
        { s.config with safetyEnabled := sf } })).events =
        (update now { s with config := { s.config with safetyEnabled := sf } }).events
          ++ tl2 ∧
      tl2.count (SAFETY_TIMEOUT, c) = 0) := by
  set t : SolenoidDriver :=
    { s with config := { s.config with safetyEnabled := sf } } with ht
  have htinit : t.initialized = true := hinit
  have hupd : update now t = (List.range t.channelCount).foldl (sweepStep now) t := by
    unfold update
    rw [if_neg (by simp [hinit])]
  have hbound : c < 8 * t.boardCount := by
    have h1 := hwf.1
    unfold CHANNELS_PER_BOARD at h1
    show c < 8 * s.boardCount
    omega
  have htime : timedOut now t c := ⟨hon, hmax, hdur⟩
  have hhit := sweepFold_hit now (List.range t.channelCount) t c
    (List.nodup_range _) (List.mem_range.mpr hc) hbound htime
  rw [hupd]
  refine ⟨hhit.1, hhit.2.1, hhit.2.2.1, hhit.2.2.2, fun now2 => ?_⟩
  set u := (List.range t.channelCount).foldl (sweepStep now) t with hu
  have huinit : u.initialized = true := by
    rw [(sweepFold_misc now (List.range t.channelCount) t).2.2.1]
    exact htinit
  have hupd2 : update now2 u = (List.range u.channelCount).foldl (sweepStep now2) u := by
    unfold update
    rw [if_neg (by simp [huinit])]
  rw [hupd2]
  exact (sweepFold_offstay now2 (List.range u.channelCount) u c hhit.1).2

/-- Witness for claim C1: channel 0 turned on at t=0 with a 2000 ms timeout,
swept at t=2500 with the safety flag disabled — it is still forced off. -/
theorem claim_C1_witness :
    (let sW := (turnOn 0 0 (setConfig
      { maxOnTimeMs := 2000, minOffTimeMs := 15, maxDutyCycle := ⟨1, 1⟩ }
      (begin (fun _ => true) (fun _ => 0x20) 1 init0).2)).2
     (((update 2500 { sW with config :=
        { sW.config with safetyEnabled := false } }).channels 0).isOn = false) ∧
     (((update 2500 { sW with config :=
        { sW.config with safetyEnabled := false } }).boardStates 0).testBit 0 = false)) := by
  have h := claim_C1 ((turnOn 0 0 (setConfig
      { maxOnTimeMs := 2000, minOffTimeMs := 15, maxDutyCycle := ⟨1, 1⟩ }
      (begin (fun _ => true) (fun _ => 0x20) 1 init0).2)).2) 2500 0 false
    (by decide) (by decide) (by decide) (by decide) (by decide) (by decide)
  exact ⟨h.1, h.2.1⟩

end ClaimC1

section ClaimC10

open SolenoidChannel SolenoidDriver

/-- The cache-coherence invariant of claim C10: bit `i` of the cached board
output mask equals the logical on-state of channel `8*b + i`. -/
def maskInv (s : SolenoidDriver) : Prop :=
  ∀ b, b < s.boardCount → ∀ i, i < 8 →
    (s.boardStates b).testBit i = (s.channels (8 * b + i)).isOn

instance (s : SolenoidDriver) : Decidable (maskInv s) := by
  unfold maskInv
  infer_instance

theorem maskInv_of_isOn_eq (s t : SolenoidDriver)
    (hbs : ∀ b, t.boardStates b = s.boardStates b) (hbc : t.boardCount = s.boardCount)
    (hiso : ∀ j, (t.channels j).isOn = (s.channels j).isOn)
    (hinv : maskInv s) : maskInv t := by
  intro b hb i hi
  rw [hbs b, hiso (8 * b + i)]
  exact hinv b (by rw [hbc] at hb; exact hb) i hi

/-- A `writeChannel` of `st` to channel `ch`'s pin followed by storing a
channel object whose on-state is `st` preserves the invariant. -/
theorem maskInv_write_set (s : SolenoidDriver) (ch : Nat) (st : Bool) (c' : SolenoidChannel)
    (hch : ch < 8 * s.boardCount) (hc' : c'.isOn = st) (hinv : maskInv s) :
    maskInv (setChannel ch c' (writeChannel (ch / 8) (ch % 8) st s).2) := by
  intro b hb i hi
  have hbc : (setChannel ch c' (writeChannel (ch / 8) (ch % 8) st s).2).boardCount
      = s.boardCount := (setChannel_misc _ _ _).2.2.2.1.trans (writeChannel_misc _ _ _ _).2.2.1
  rw [hbc] at hb
  have hdiv : ch / 8 < s.boardCount := by omega
  have hmod : ch % 8 < CHANNELS_PER_BOARD := by
    unfold CHANNELS_PER_BOARD
    omega
  have hsets := writeChannel_sets (ch / 8) (ch % 8) st s hdiv hmod b
  rw [show (setChannel ch c' (writeChannel (ch / 8) (ch % 8) st s).2).boardStates b =
      (writeChannel (ch / 8) (ch % 8) st s).2.boardStates b from
      congrFun (setChannel_misc _ _ _).1 b,
    hsets.1, setChannel_channels, (writeChannel_misc (ch / 8) (ch % 8) st s).1]
  by_cases hjc : 8 * b + i = ch
  · have hbch : b = ch / 8 := by omega
    have hich : i = ch % 8 := by omega
    rw [if_pos hjc, if_pos hbch, hc']
    cases st
    · rw [if_neg (by simp), hich, testBit_bitClear _ _ _ (by omega), if_pos rfl]
    · rw [if_pos rfl, hich, testBit_bitSet, if_pos rfl]
  · rw [if_neg hjc]
    by_cases hbch : b = ch / 8
    · have hich : i ≠ ch % 8 := by omega
      rw [if_pos hbch]
      cases st
      · rw [if_neg (by simp), testBit_bitClear _ _ _ hi, if_neg (by omega), hbch]
        exact hinv (ch / 8) hdiv i hi
      · rw [if_pos rfl, testBit_bitSet, if_neg (by omega), hbch]
        exact hinv (ch / 8) hdiv i hi
    · rw [if_neg hbch]
      exact hinv b hb i hi

theorem maskInv_turnOn (now ch : Nat) (s : SolenoidDriver)
    (hle : s.channelCount ≤ 8 * s.boardCount) (hinv : maskInv s) :
    maskInv (turnOn now ch s).2 := by
  have htriv : ∀ e c, maskInv (reportError e c s) :=
    fun e c => maskInv_of_isOn_eq s _ (fun _ => rfl) rfl (fun _ => rfl) hinv
  unfold turnOn
  dsimp only
  by_cases h1 : ¬ s.initialized = true
  · rw [if_pos h1]
    exact htriv _ _
  · rw [if_neg h1]
    by_cases h2 : ch ≥ s.channelCount
    · rw [if_pos h2]
      exact htriv _ _
    · rw [if_neg h2]
      by_cases h3 : (s.channels ch).isOn = true
      · rw [if_pos h3]
        exact maskInv_of_isOn_eq s _ (fun _ => rfl) rfl (fun _ => rfl) hinv
      · rw [if_neg h3]
        have hE : ∀ t : SolenoidDriver, maskInv t → t.boardCount = s.boardCount →
            maskInv (if ¬ (writeChannel (globalToLocal ch).1 (globalToLocal ch).2 true t).1 = true
              then (I2C_COMMUNICATION, reportError I2C_COMMUNICATION ch
                (writeChannel (globalToLocal ch).1 (globalToLocal ch).2 true t).2)
              else (OK, { setChannel ch (updateState now true
                ((writeChannel (globalToLocal ch).1 (globalToLocal ch).2 true t).2.channels ch))
                (writeChannel (globalToLocal ch).1 (globalToLocal ch).2 true t).2
                with lastError := OK })).2 := by
          intro t hinvt hbct
          have hw : (writeChannel (globalToLocal ch).1 (globalToLocal ch).2 true t).1 = true :=
            writeChannel_fst _ _ _ t
              (by
                show ch / CHANNELS_PER_BOARD < t.boardCount
                rw [hbct]
                unfold CHANNELS_PER_BOARD
                omega)
              (by
                show ch % CHANNELS_PER_BOARD < CHANNELS_PER_BOARD
                unfold CHANNELS_PER_BOARD
                omega)
          rw [if_neg (by simp [hw])]
          have hres := maskInv_write_set t ch true
            (updateState now true ((writeChannel (ch / 8) (ch % 8) true t).2.channels ch))
            (by rw [hbct]; omega) (updateState_isOn now true _) hinvt
          exact fun b hb i hi => hres b hb i hi
        by_cases h4 : s.config.safetyEnabled = true
        · rw [if_pos h4]
          have hm := isSafeToActivate_misc now ch s
          have hinv2 : maskInv (isSafeToActivate now ch s).2 :=
            maskInv_of_isOn_eq s _ (fun b => congrFun hm.1 b) hm.2.2.2.1
              hm.2.2.2.2.2.2.2 hinv
          by_cases h5 : ¬ (isSafeToActivate now ch s).1 = true
          · rw [if_pos h5]
            exact hinv2
          · rw [if_neg h5]
            exact hE _ hinv2 hm.2.2.2.1
        · rw [if_neg h4]
          exact hE s hinv rfl

theorem maskInv_off (now ch : Nat) (s : SolenoidDriver)
    (hle : s.channelCount ≤ 8 * s.boardCount) (hinv : maskInv s) :
    maskInv (off now ch s).2 := by
  have htriv : ∀ e c, maskInv (reportError e c s) :=
    fun e c => maskInv_of_isOn_eq s _ (fun _ => rfl) rfl (fun _ => rfl) hinv
  unfold off
  by_cases h1 : ¬ s.initialized = true
  · rw [if_pos h1]
    exact htriv _ _
  · rw [if_neg h1]
    by_cases h2 : ch ≥ s.channelCount
    · rw [if_pos h2]
      exact htriv _ _
    · rw [if_neg h2]
      by_cases h3 : ¬ (s.channels ch).isOn = true
      · rw [if_pos h3]
        exact maskInv_of_isOn_eq s _ (fun _ => rfl) rfl (fun _ => rfl) hinv
      · rw [if_neg h3]
        dsimp only
        have hw : (writeChannel (globalToLocal ch).1 (globalToLocal ch).2 false s).1 = true :=
          writeChannel_fst _ _ _ s
            (by
              show ch / CHANNELS_PER_BOARD < s.boardCount
              unfold CHANNELS_PER_BOARD
              omega)
            (by
              show ch % CHANNELS_PER_BOARD < CHANNELS_PER_BOARD
              unfold CHANNELS_PER_BOARD
              omega)
        rw [if_neg (by simp [hw])]
        have hres := maskInv_write_set s ch false
          (updateState now false ((writeChannel (ch / 8) (ch % 8) false s).2.channels ch))
          (by omega) (updateState_isOn now false _) hinv
        exact fun b hb i hi => hres b hb i hi

theorem off_misc (now ch : Nat) (s : SolenoidDriver) :
    (off now ch s).2.boardCount = s.boardCount ∧
    (off now ch s).2.channelCount = s.channelCount ∧
    (off now ch s).2.initialized = s.initialized ∧
    (off now ch s).2.config = s.config := by
  unfold off
  dsimp only
  split_ifs <;> simp [setChannel, reportError, writeChannel_misc]

theorem maskInv_set (now ch : Nat) (st : Bool) (s : SolenoidDriver)
    (hle : s.channelCount ≤ 8 * s.boardCount) (hinv : maskInv s) :
    maskInv (set now ch st s).2 := by
  unfold SolenoidDriver.set
  cases st
  · rw [if_neg (by simp)]
    exact maskInv_off now ch s hle hinv
  · rw [if_pos rfl]
    exact maskInv_turnOn now ch s hle hinv

theorem maskInv_toggle (now ch : Nat) (s : SolenoidDriver)
    (hle : s.channelCount ≤ 8 * s.boardCount) (hinv : maskInv s) :
    maskInv (toggle now ch s).2 := by
  unfold toggle
  by_cases h : ch ≥ s.channelCount
  · rw [if_pos h]
    exact maskInv_of_isOn_eq s _ (fun _ => rfl) rfl (fun _ => rfl) hinv
  · rw [if_neg h]
    exact maskInv_set now ch _ s hle hinv

theorem maskInv_pulse (now ch d : Nat) (s : SolenoidDriver)
    (hle : s.channelCount ≤ 8 * s.boardCount) (hinv : maskInv s) :
    maskInv (pulse now ch d s).2 := by
  unfold pulse
  dsimp only
  split_ifs <;>
    first
      | exact maskInv_turnOn now ch s hle hinv
      | exact maskInv_off _ ch (turnOn now ch s).2
          (by rw [(turnOn_misc now ch s).1, (turnOn_misc now ch s).2.1]; exact hle)
          (maskInv_turnOn now ch s hle hinv)

theorem maskInv_allOnLoop (now : Nat) : ∀ (L : List Nat) (s : SolenoidDriver)
    (failed : Nat) (first : SolenoidError),
    s.channelCount ≤ 8 * s.boardCount → maskInv s →
    maskInv (allOnLoop now L s failed first).2.1 := by
  intro L
  induction L with
  | nil => intro s _ _ _ hinv; exact hinv
  | cons ch t ih =>
    intro s failed first hle hinv
    have hm := turnOn_misc now ch s
    have hle2 : (turnOn now ch s).2.channelCount ≤ 8 * (turnOn now ch s).2.boardCount := by
      rw [hm.1, hm.2.1]
      exact hle
    have hinv2 := maskInv_turnOn now ch s hle hinv
    simp only [allOnLoop]
    split_ifs <;>
      first
        | exact hinv2
        | exact ih (turnOn now ch s).2 _ _ hle2 hinv2

theorem maskInv_allOn (now : Nat) (s : SolenoidDriver)
    (hle : s.channelCount ≤ 8 * s.boardCount) (hinv : maskInv s) :
    maskInv (allOn now s).2 := by
  unfold allOn
  by_cases h : ¬ s.initialized = true
  · rw [if_pos h]
    exact maskInv_of_isOn_eq s _ (fun _ => rfl) rfl (fun _ => rfl) hinv
  · rw [if_neg h]
    have hloop := maskInv_allOnLoop now (List.range s.channelCount) s 0 OK hle hinv
    rcases hq : allOnLoop now (List.range s.channelCount) s 0 OK with ⟨e, s1, failed, first⟩
    rw [hq] at hloop
    cases e
    · dsimp only at hloop ⊢
      split_ifs
      · exact hloop
      · exact fun b hb i hi => hloop b hb i hi
    · exact hloop

theorem maskInv_allOffLoop (now : Nat) : ∀ (L : List Nat) (s : SolenoidDriver),
    maskInv s → maskInv (allOffLoop now L s).2 := by
  intro L
  induction L with
  | nil => intro s hinv; exact hinv
  | cons b t ih =>
    intro s hinv
    by_cases hb : (writeBoard b 0 s).1 = true
    · have hbc : b < s.boardCount := by
        by_contra hq
        unfold writeBoard at hb
        rw [if_pos (Nat.le_of_not_lt hq)] at hb
        cases hb
      have hstep : allOffLoop now (b :: t) s =
          allOffLoop now t
            (chFold (fun _ c => updateState now false c)
              ((List.range CHANNELS_PER_BOARD).map (fun ch => b * CHANNELS_PER_BOARD + ch))
              (writeBoard b 0 s).2) := by
        simp only [allOffLoop]
        simp [hb]
      rw [hstep]
      apply ih
      intro b' hb' i hi
      have hfm := chFold_misc (fun _ c => updateState now false c)
        ((List.range CHANNELS_PER_BOARD).map (fun ch => b * CHANNELS_PER_BOARD + ch))
        (writeBoard b 0 s).2
      rw [congrFun hfm.1 b', (writeBoard_boardStates b 0 s hbc b').1,
        chFold_channels _ _ _ _ (boardChannelList_nodup b)]
      have hbc' : b' < s.boardCount := by
        rw [hfm.2.2.2.1, (writeBoard_misc b 0 s).2.2.1] at hb'
        exact hb'
      have hdiv : (8 * b' + i) / 8 = b' := by omega
      by_cases hbb : b' = b
      · rw [if_pos hbb, if_pos (by rw [boardChannelList_mem]; omega), updateState_isOn,
          Nat.zero_testBit]
      · rw [if_neg hbb, if_neg (by rw [boardChannelList_mem]; omega),
          congrFun (writeBoard_misc b 0 s).1 (8 * b' + i)]
        exact hinv b' hbc' i hi
    · have hw2 : (writeBoard b 0 s).2 = s := by
        unfold writeBoard at hb ⊢
        by_cases hq : b ≥ s.boardCount
        · rw [if_pos hq]
        · rw [if_neg hq] at hb
          simp at hb
      simp only [allOffLoop]
      rw [if_pos hb, hw2]
      exact maskInv_of_isOn_eq s _ (fun _ => rfl) rfl (fun _ => rfl) hinv

theorem maskInv_allOff (now : Nat) (s : SolenoidDriver) (hinv : maskInv s) :
    maskInv (allOff now s).2 := by
  unfold allOff
  by_cases h : ¬ s.initialized = true
  · rw [if_pos h]
    exact maskInv_of_isOn_eq s _ (fun _ => rfl) rfl (fun _ => rfl) hinv
  · rw [if_neg h]
    dsimp only
    have hloop := maskInv_allOffLoop now (List.range s.boardCount) s hinv
    split_ifs
    · exact hloop
    · exact fun b hb i hi => hloop b hb i hi

theorem filterMask_weak (now board : Nat) : ∀ (L : List Nat) (states blocked : Nat)
    (s : SolenoidDriver),
    ((filterMask now board L states blocked s).2.2.boardStates = s.boardStates) ∧
    ((filterMask now board L states blocked s).2.2.hwPorts = s.hwPorts) ∧
    ((filterMask now board L states blocked s).2.2.boardCount = s.boardCount) ∧
    ((filterMask now board L states blocked s).2.2.channelCount = s.channelCount) ∧
    ((filterMask now board L states blocked s).2.2.initialized = s.initialized) ∧
    ((filterMask now board L states blocked s).2.2.config = s.config) ∧
    (∀ j, ((filterMask now board L states blocked s).2.2.channels j).isOn
      = (s.channels j).isOn) := by
  intro L
  induction L with
  | nil =>
    intro states blocked s
    exact ⟨rfl, rfl, rfl, rfl, rfl, rfl, fun _ => rfl⟩
  | cons a t ih =>
    intro states blocked s
    have hm := isSafeToActivate_misc now (board * CHANNELS_PER_BOARD + a) s
    simp only [filterMask]
    split_ifs <;>
      [skip; skip; exact ih states blocked s] <;>
      [have iht := ih states blocked
        (isSafeToActivate now (board * CHANNELS_PER_BOARD + a) s).2;
       have iht := ih (bitClear states a) (bitSet blocked a)
        (isSafeToActivate now (board * CHANNELS_PER_BOARD + a) s).2] <;>
      exact ⟨iht.1.trans hm.1, iht.2.1.trans hm.2.1, iht.2.2.1.trans hm.2.2.2.1,
        iht.2.2.2.1.trans hm.2.2.2.2.1, iht.2.2.2.2.1.trans hm.2.2.2.2.2.1,
        iht.2.2.2.2.2.1.trans hm.2.2.2.2.2.2.1,
        fun j => (iht.2.2.2.2.2.2 j).trans (hm.2.2.2.2.2.2.2 j)⟩

theorem maskInv_setBoardChannels (now board m : Nat) (s : SolenoidDriver)
    (hinv : maskInv s) : maskInv (setBoardChannels now board m s).2 := by
  unfold setBoardChannels
  by_cases h1 : ¬ s.initialized = true
  · rw [if_pos h1]
    exact maskInv_of_isOn_eq s _ (fun _ => rfl) rfl (fun _ => rfl) hinv
  · rw [if_neg h1]
    by_cases h2 : board ≥ s.boardCount
    · rw [if_pos h2]
      exact maskInv_of_isOn_eq s _ (fun _ => rfl) rfl (fun _ => rfl) hinv
    · rw [if_neg h2]
      dsimp only
      -- the filtered triple, in either safety mode
      set F := if s.config.safetyEnabled = true then
          filterMask now board (List.range CHANNELS_PER_BOARD) (m % 256) 0 s
        else (m % 256, 0, s) with hF
      have hweak : (F.2.2.boardStates = s.boardStates) ∧
          (F.2.2.boardCount = s.boardCount) ∧
          (∀ j, (F.2.2.channels j).isOn = (s.channels j).isOn) := by
        rw [hF]
        split_ifs
        · have hw := filterMask_weak now board (List.range CHANNELS_PER_BOARD) (m % 256) 0 s
          exact ⟨hw.1, hw.2.2.1, hw.2.2.2.2.2.2⟩
        · exact ⟨rfl, rfl, fun _ => rfl⟩
      have hwb : (writeBoard board F.1 F.2.2).1 = true :=
        writeBoard_fst board F.1 F.2.2 (by rw [hweak.2.1]; omega)
      rw [if_neg (by simp [hwb])]
      have hmain : maskInv (updateBoardChannelStates now board F.1
          (writeBoard board F.1 F.2.2).2) := by
        intro b' hb' i hi
        unfold updateBoardChannelStates at hb' ⊢
        have hfm := chFold_misc
          (fun i c => updateState now (F.1.testBit (i - board * CHANNELS_PER_BOARD)) c)
          ((List.range CHANNELS_PER_BOARD).map (fun ch => board * CHANNELS_PER_BOARD + ch))
          (writeBoard board F.1 F.2.2).2
        have hbc' : b' < s.boardCount := by
          rw [hfm.2.2.2.1, (writeBoard_misc _ _ _).2.2.1, hweak.2.1] at hb'
          exact hb'
        rw [congrFun hfm.1 b',
          (writeBoard_boardStates board F.1 F.2.2 (by rw [hweak.2.1]; omega) b').1,
          chFold_channels _ _ _ _ (boardChannelList_nodup board)]
        by_cases hbb : b' = board
        · rw [if_pos hbb, if_pos (by rw [boardChannelList_mem]; omega), updateState_isOn]
          rw [show 8 * b' + i - board * CHANNELS_PER_BOARD = i by
            unfold CHANNELS_PER_BOARD; omega]
        · rw [if_neg hbb, if_neg (by rw [boardChannelList_mem]; omega),
            congrFun (writeBoard_misc _ _ _).1 (8 * b' + i), hweak.2.2 (8 * b' + i),
            congrFun hweak.1 b']
          exact hinv b' hbc' i hi
      split_ifs
      · exact hmain
      · exact fun b hb i hi => hmain b hb i hi

theorem setBoardChannels_misc (now board m : Nat) (s : SolenoidDriver) :
    (setBoardChannels now board m s).2.boardCount = s.boardCount ∧
    (setBoardChannels now board m s).2.channelCount = s.channelCount ∧
    (setBoardChannels now board m s).2.initialized = s.initialized ∧
    (setBoardChannels now board m s).2.config = s.config := by
  unfold setBoardChannels
  dsimp only
  have hw := filterMask_weak now board (List.range CHANNELS_PER_BOARD) (m % 256) 0 s
  split_ifs <;>
            simp [reportError, updateBoardChannelStates, chFold_misc, writeBoard_misc,
              hw.2.2.1, hw.2.2.2.1, hw.2.2.2.2.1, hw.2.2.2.2.2.1]

theorem maskInv_setAllLoop (now : Nat) (states : Nat → Nat) :
    ∀ (L : List Nat) (anyBlocked : Bool) (s : SolenoidDriver),
    maskInv s → maskInv (setAllLoop now states L anyBlocked s).2.2 := by
  intro L
  induction L with
  | nil => intro anyBlocked s hinv; exact hinv
  | cons b t ih =>
    intro anyBlocked s hinv
    have hstep := maskInv_setBoardChannels now b (states b) s hinv
    simp only [setAllLoop]
    split_ifs <;>
      first
        | exact hstep
        | exact ih _ (setBoardChannels now b (states b) s).2 hstep

theorem maskInv_setAll (now : Nat) (states : Nat → Nat) (n : Nat) (s : SolenoidDriver)
    (hinv : maskInv s) : maskInv (setAll now states n s).2 := by
  unfold setAll
  by_cases h1 : ¬ s.initialized = true
  · rw [if_pos h1]
    exact maskInv_of_isOn_eq s _ (fun _ => rfl) rfl (fun _ => rfl) hinv
  · rw [if_neg h1]
    by_cases h2 : n < s.boardCount
    · rw [if_pos h2]
      exact maskInv_of_isOn_eq s _ (fun _ => rfl) rfl (fun _ => rfl) hinv
    · rw [if_neg h2]
      have hloop := maskInv_setAllLoop now states (List.range s.boardCount) false s hinv
      rcases hq : setAllLoop now states (List.range s.boardCount) false s
        with ⟨e, anyBlocked, s1⟩
      rw [hq] at hloop
      cases e
      · dsimp only at hloop ⊢
        split_ifs
        · exact hloop
        · exact fun b hb i hi => hloop b hb i hi
      · exact hloop

theorem maskInv_sweepStep (now : Nat) (s : SolenoidDriver) (ch : Nat)
    (hch : ch < 8 * s.boardCount) (hinv : maskInv s) :
    maskInv (sweepStep now s ch) := by
  by_cases h : timedOut now s ch
  · rw [sweepStep_of_timedOut now s ch h]
    have hres := maskInv_write_set s ch false (updateState now false (s.channels ch))
      hch (updateState_isOn now false _) hinv
    exact fun b hb i hi => hres b hb i hi
  · rw [sweepStep_of_not now s ch h]
    exact hinv

theorem maskInv_sweepFold (now : Nat) : ∀ (L : List Nat) (s : SolenoidDriver),
    (∀ ch ∈ L, ch < 8 * s.boardCount) → maskInv s →
    maskInv (L.foldl (sweepStep now) s) := by
  intro L
  induction L with
  | nil => intro s _ hinv; exact hinv
  | cons a t ih =>
    intro s hb hinv
    simp only [List.foldl_cons]
    apply ih
    · intro ch hch
      rw [(sweepStep_misc now s a).1]
      exact hb ch (List.mem_cons_of_mem a hch)
    · exact maskInv_sweepStep now s a (hb a (List.mem_cons_self a t)) hinv

theorem maskInv_update (now : Nat) (s : SolenoidDriver)
    (hle : s.channelCount ≤ 8 * s.boardCount) (hinv : maskInv s) :
    maskInv (update now s) := by
  unfold update
  split_ifs <;>
    first
      | exact hinv
      | exact maskInv_sweepFold now (List.range s.channelCount) s
          (fun ch hch => by
            rw [List.mem_range] at hch
            omega) hinv

theorem maskInv_emergencyStop (now : Nat) (s : SolenoidDriver)
    (hge : 8 * s.boardCount ≤ s.channelCount) : maskInv (emergencyStop now s) := by
  intro b hb i hi
  unfold emergencyStop at hb ⊢
  set s1 : SolenoidDriver := { s with
    boardStates := fun b => if b < s.boardCount then 0 else s.boardStates b
    hwPorts := fun b => if b < s.boardCount then 0 else s.hwPorts b } with hs1
  have hfm := chFold_misc (fun _ c => updateState now false c) (List.range s.channelCount) s1
  have hbc : b < s.boardCount := by
    rw [hfm.2.2.2.1] at hb
    exact hb
  rw [congrFun hfm.1 b, chFold_channels _ _ _ _ (List.nodup_range _),
    if_pos (List.mem_range.mpr (by omega)), updateState_isOn]
  show (if b < s.boardCount then 0 else s.boardStates b).testBit i = false
  rw [if_pos hbc, Nat.zero_testBit]

theorem maskInv_resetAllStats (s : SolenoidDriver) (hinv : maskInv s) :
    maskInv (resetAllStats s) := by
  unfold resetAllStats
  apply maskInv_of_isOn_eq s _ _ _ _ hinv
  · intro b
    rw [congrFun (chFold_misc _ _ _).1 b]
  · exact (chFold_misc _ _ _).2.2.2.1
  · intro j
    rw [chFold_channels _ _ _ _ (List.nodup_range _)]
    split_ifs
    · rfl
    · rfl

/-- Claim C10: on a well-formed driver state satisfying the cache-coherence
invariant (bit `i` of each cached board mask equals `isOn` of channel
`8*b + i`), every public mutating operation preserves the invariant:
single-channel control, bulk control, the periodic sweep, emergency stop,
statistics reset and reconfiguration. -/
theorem claim_C10 (s : SolenoidDriver) (hwf : WF s) (hinv : maskInv s)
    (now ch d board m n : Nat) (st : Bool) (states : Nat → Nat)
    (cfg : SolenoidConfig) :
    maskInv (turnOn now ch s).2 ∧
    maskInv (off now ch s).2 ∧
    maskInv (set now ch st s).2 ∧
    maskInv (toggle now ch s).2 ∧
    maskInv (pulse now ch d s).2 ∧
    maskInv (allOn now s).2 ∧
    maskInv (allOff now s).2 ∧
    maskInv (setBoardChannels now board m s).2 ∧
    maskInv (setAll now states n s).2 ∧
    maskInv (update now s) ∧
    maskInv (emergencyStop now s) ∧
    maskInv (resetAllStats s) ∧
    maskInv (setConfig cfg s) := by
  have hle : s.channelCount ≤ 8 * s.boardCount := by
    have h := hwf.1
    unfold CHANNELS_PER_BOARD at h
    omega
  have hge : 8 * s.boardCount ≤ s.channelCount := by
    have h := hwf.1
    unfold CHANNELS_PER_BOARD at h
    omega
  exact ⟨maskInv_turnOn now ch s hle hinv, maskInv_off now ch s hle hinv,
    maskInv_set now ch st s hle hinv, maskInv_toggle now ch s hle hinv,
    maskInv_pulse now ch d s hle hinv, maskInv_allOn now s hle hinv,
    maskInv_allOff now s hinv, maskInv_setBoardChannels now board m s hinv,
    maskInv_setAll now states n s hinv, maskInv_update now s hle hinv,
    maskInv_emergencyStop now s hge, maskInv_resetAllStats s hinv,
    fun b hb i hi => hinv b hb i hi⟩

/-- Witness for claim C10: a freshly initialized two-board driver (which
satisfies the invariant), checked after a concrete `on` and after a
bulk board write. -/
theorem claim_C10_witness :
    (let sW := setConfig { maxDutyCycle := ⟨1, 1⟩ }
      (begin (fun _ => true) (fun a => 0x20 + a) 2 init0).2
     WF sW ∧ maskInv sW ∧ maskInv (turnOn 0 3 sW).2 ∧
       maskInv (setBoardChannels 0 1 0xA5 sW).2 ∧ maskInv (emergencyStop 0 sW)) := by
  have h := claim_C10 (setConfig { maxDutyCycle := ⟨1, 1⟩ }
      (begin (fun _ => true) (fun a => 0x20 + a) 2 init0).2)
    (by decide) (by decide) 0 3 0 1 0xA5 0 true (fun _ => 0) {}
  exact ⟨by decide, by decide, h.1, h.2.2.2.2.2.2.2.1, h.2.2.2.2.2.2.2.2.2.2.1⟩

end ClaimC10

section ClaimC6

open SolenoidChannel SolenoidDriver

theorem timeSinceOff_congr (now : Nat) (c c' : SolenoidChannel)
    (h : c'.lastOffTime = c.lastOffTime) : timeSinceOff now c' = timeSinceOff now c := by
  unfold timeSinceOff
  rw [h]

/-- Re-evaluating the safety verdict on the channel it just mutated, at the
same instant, yields the same verdict, channel and error. -/
theorem safeVerdict_idem (cfg : SolenoidConfig) (now : Nat) (c : SolenoidChannel) :
    safeVerdict cfg now (safeVerdict cfg now c).2.1 = safeVerdict cfg now c := by
  by_cases h1 : cfg.minOffTimeMs > 0 ∧ timeSinceOff now c < cfg.minOffTimeMs
  · have hc1 : (safeVerdict cfg now c).2.1 = c := by
      unfold safeVerdict
      rw [if_pos h1]
    rw [hc1]
  · by_cases h2 : ¬ cfg.maxDutyCycle.geOne = true ∧ cfg.dutyCycleWindowMs > 0
    · have hc1 : (safeVerdict cfg now c).2.1 =
          (getDutyCyclePercent cfg.dutyCycleWindowMs now c).2 := by
        unfold safeVerdict
        rw [if_neg h1, if_pos h2]
        dsimp only
        split_ifs <;> rfl
      have hpres := getDutyCyclePercent_preserves cfg.dutyCycleWindowMs now c
      have htso := timeSinceOff_congr now c
        (getDutyCyclePercent cfg.dutyCycleWindowMs now c).2 hpres.2.2
      have h1' : ¬ (cfg.minOffTimeMs > 0 ∧
          timeSinceOff now (getDutyCyclePercent cfg.dutyCycleWindowMs now c).2
            < cfg.minOffTimeMs) := by
        rw [htso]
        exact h1
      rw [hc1]
      conv_lhs => unfold safeVerdict
      conv_rhs => unfold safeVerdict
      rw [if_neg h1', if_neg h1, if_pos h2, if_pos h2]
      dsimp only
      rw [getDutyCyclePercent_idem]
    · have hc1 : (safeVerdict cfg now c).2.1 = c := by
        unfold safeVerdict
        rw [if_neg h1, if_neg h2]
      rw [hc1]

theorem isSafeToActivate_frame (now ch : Nat) (s : SolenoidDriver) (j : Nat)
    (hj : j ≠ ch) : (isSafeToActivate now ch s).2.channels j = s.channels j := by
  unfold isSafeToActivate
  split_ifs with h
  · rfl
  · dsimp only
    split_ifs <;> exact (setChannel_channels _ _ _ _).trans (if_neg hj)

theorem isSafeToActivate_target (now ch : Nat) (s : SolenoidDriver)
    (hch : ch < s.channelCount) :
    (isSafeToActivate now ch s).2.channels ch =
      (safeVerdict s.config now (s.channels ch)).2.1 := by
  unfold isSafeToActivate
  rw [if_neg (Nat.not_le.mpr hch)]
  dsimp only
  split_ifs <;> exact (setChannel_channels _ _ _ _).trans (if_pos rfl)

theorem isSafeToActivate_fst (now ch : Nat) (s : SolenoidDriver)
    (hch : ch < s.channelCount) :
    (isSafeToActivate now ch s).1 = (safeVerdict s.config now (s.channels ch)).1 := by
  unfold isSafeToActivate
  rw [if_neg (Nat.not_le.mpr hch)]
  dsimp only
  by_cases h : (safeVerdict s.config now (s.channels ch)).1 = true
  · rw [if_pos h, h]
  · rw [if_neg h, Bool.eq_false_iff.mpr h]

/-- Full characterization of the safety-filter loop of `setBoardChannels`:
pin by pin, a requested-on bit whose channel is currently cached off and
whose safety verdict denies is cleared from the mask, the checked channels
store the verdict's mutated channel object, and nothing else changes. -/
theorem filterMask_spec (now board : Nat) : ∀ (L : List Nat) (states blocked : Nat)
    (s : SolenoidDriver), L.Nodup → (∀ ch ∈ L, ch < 8) →
    (∀ ch ∈ L, board * CHANNELS_PER_BOARD + ch < s.channelCount) → states < 256 →
    ((∀ ch ∈ L, (filterMask now board L states blocked s).1.testBit ch =
      if (states.testBit ch = true ∧ ¬ ((s.boardStates board).testBit ch = true)) ∧
          (safeVerdict s.config now
            (s.channels (board * CHANNELS_PER_BOARD + ch))).1 = false
        then false else states.testBit ch) ∧
    (∀ ch, ch < 8 → ch ∉ L →
      (filterMask now board L states blocked s).1.testBit ch = states.testBit ch) ∧
    ((filterMask now board L states blocked s).1 < 256) ∧
    (∀ ch ∈ L, (filterMask now board L states blocked s).2.2.channels
        (board * CHANNELS_PER_BOARD + ch) =
      if states.testBit ch = true ∧ ¬ ((s.boardStates board).testBit ch = true)
        then (safeVerdict s.config now
          (s.channels (board * CHANNELS_PER_BOARD + ch))).2.1
        else s.channels (board * CHANNELS_PER_BOARD + ch)) ∧
    (∀ j, (∀ ch ∈ L, j ≠ board * CHANNELS_PER_BOARD + ch) →
      (filterMask now board L states blocked s).2.2.channels j = s.channels j)) := by
  intro L
  induction L with
  | nil =>
    intro states blocked s _ _ _ hst
    exact ⟨fun ch hch => absurd hch (List.not_mem_nil ch),
      fun ch _ _ => rfl, hst,
      fun ch hch => absurd hch (List.not_mem_nil ch), fun j _ => rfl⟩
  | cons a t ih =>
    intro states blocked s hnd hL8 hbound hst
    rw [List.nodup_cons] at hnd
    have ha8 : a < 8 := hL8 a (List.mem_cons_self a t)
    have hba : board * CHANNELS_PER_BOARD + a < s.channelCount :=
      hbound a (List.mem_cons_self a t)
    have hvfst := isSafeToActivate_fst now (board * CHANNELS_PER_BOARD + a) s hba
    have hvtgt := isSafeToActivate_target now (board * CHANNELS_PER_BOARD + a) s hba
    have hm := isSafeToActivate_misc now (board * CHANNELS_PER_BOARD + a) s
    have hneq : ∀ ch ∈ t, ch ≠ a := fun ch hch he => hnd.1 (he ▸ hch)
    have hja : ∀ ch' ∈ t, board * CHANNELS_PER_BOARD + a
        ≠ board * CHANNELS_PER_BOARD + ch' :=
      fun ch' hch' he => hneq ch' hch' (Nat.add_left_cancel he).symm
    by_cases hcond : states.testBit a = true ∧ ¬ ((s.boardStates board).testBit a = true)
    · have hstep : filterMask now board (a :: t) states blocked s =
          if ¬ (isSafeToActivate now (board * CHANNELS_PER_BOARD + a) s).1 = true then
            filterMask now board t (bitClear states a) (bitSet blocked a)
              (isSafeToActivate now (board * CHANNELS_PER_BOARD + a) s).2
          else filterMask now board t states blocked
            (isSafeToActivate now (board * CHANNELS_PER_BOARD + a) s).2 := by
        simp only [filterMask]
        rw [if_pos hcond]
      rw [hstep]
      set g := (isSafeToActivate now (board * CHANNELS_PER_BOARD + a) s).2 with hg
      have T2 : g.boardStates board = s.boardStates board := congrFun hm.1 board
      have T3 : ∀ ch, ch ≠ a →
          g.channels (board * CHANNELS_PER_BOARD + ch) =
            s.channels (board * CHANNELS_PER_BOARD + ch) := by
        intro ch hch
        exact isSafeToActivate_frame now _ s _
          (fun he => hch (Nat.add_left_cancel he))
      have T4 : g.config = s.config := hm.2.2.2.2.2.2.1
      have hboundg : ∀ ch ∈ t, board * CHANNELS_PER_BOARD + ch < g.channelCount := by
        intro ch hch
        rw [hm.2.2.2.2.1]
        exact hbound ch (List.mem_cons_of_mem a hch)
      by_cases hdeny : ¬ (isSafeToActivate now (board * CHANNELS_PER_BOARD + a) s).1 = true
      · rw [if_pos hdeny]
        have hV : (safeVerdict s.config now
            (s.channels (board * CHANNELS_PER_BOARD + a))).1 = false := by
          rw [← hvfst]
          exact Bool.eq_false_iff.mpr hdeny
        have iht := ih (bitClear states a) (bitSet blocked a) g hnd.2
          (fun ch hch => hL8 ch (List.mem_cons_of_mem a hch)) hboundg
          (Nat.lt_of_le_of_lt Nat.and_le_left hst)
        have T1 : ∀ ch, ch ≠ a → ch < 8 →
            (bitClear states a).testBit ch = states.testBit ch := by
          intro ch hch h8
          rw [testBit_bitClear _ _ _ h8, if_neg hch]
        refine ⟨?_, ?_, iht.2.2.1, ?_, ?_⟩
        · intro ch hch
          rcases List.mem_cons.mp hch with he | hcht
          · subst he
            rw [iht.2.1 ch ha8 hnd.1, testBit_bitClear _ _ _ ha8, if_pos rfl,
              if_pos ⟨hcond, hV⟩]
          · have hch8 := hL8 ch (List.mem_cons_of_mem a hcht)
            rw [iht.1 ch hcht, T1 ch (hneq ch hcht) hch8, T2, T3 ch (hneq ch hcht), T4]
        · intro ch h8 hch
          have hcha : ch ≠ a := fun he => hch (he ▸ List.mem_cons_self a t)
          have hcht : ch ∉ t := fun hq => hch (List.mem_cons_of_mem a hq)
          rw [iht.2.1 ch h8 hcht, T1 ch hcha h8]
        · intro ch hch
          rcases List.mem_cons.mp hch with he | hcht
          · subst he
            rw [iht.2.2.2.2 (board * CHANNELS_PER_BOARD + ch) hja, hg, hvtgt,
              if_pos hcond]
          · rw [iht.2.2.2.1 ch hcht, T1 ch (hneq ch hcht)
              (hL8 ch (List.mem_cons_of_mem a hcht)), T2, T3 ch (hneq ch hcht), T4]
        · intro j hj
          rw [iht.2.2.2.2 j (fun ch hch => hj ch (List.mem_cons_of_mem a hch)), hg]
          exact isSafeToActivate_frame now _ s j (hj a (List.mem_cons_self a t))
      · rw [if_neg hdeny]
        have hV : (safeVerdict s.config now
            (s.channels (board * CHANNELS_PER_BOARD + a))).1 = true := by
          rw [← hvfst]
          exact Decidable.not_not.mp hdeny
        have iht := ih states blocked g hnd.2
          (fun ch hch => hL8 ch (List.mem_cons_of_mem a hch)) hboundg hst
        refine ⟨?_, ?_, iht.2.2.1, ?_, ?_⟩
        · intro ch hch
          rcases List.mem_cons.mp hch with he | hcht
          · subst he
            rw [iht.2.1 ch ha8 hnd.1,
              if_neg (fun hq => by rw [hV] at hq; cases hq.2)]
          · rw [iht.1 ch hcht, T2, T3 ch (hneq ch hcht), T4]
        · intro ch h8 hch
          exact iht.2.1 ch h8 (fun hq => hch (List.mem_cons_of_mem a hq))
        · intro ch hch
          rcases List.mem_cons.mp hch with he | hcht
          · subst he
            rw [iht.2.2.2.2 (board * CHANNELS_PER_BOARD + ch) hja, hg, hvtgt,
              if_pos hcond]
          · rw [iht.2.2.2.1 ch hcht, T2, T3 ch (hneq ch hcht), T4]
        · intro j hj
          rw [iht.2.2.2.2 j (fun ch hch => hj ch (List.mem_cons_of_mem a hch)), hg]
          exact isSafeToActivate_frame now _ s j (hj a (List.mem_cons_self a t))
    · have hstep : filterMask now board (a :: t) states blocked s =
          filterMask now board t states blocked s := by
        simp only [filterMask]
        rw [if_neg hcond]
      rw [hstep]
      have iht := ih states blocked s hnd.2
        (fun ch hch => hL8 ch (List.mem_cons_of_mem a hch))
        (fun ch hch => hbound ch (List.mem_cons_of_mem a hch)) hst
      refine ⟨?_, ?_, iht.2.2.1, ?_, ?_⟩
      · intro ch hch
        rcases List.mem_cons.mp hch with he | hcht
        · subst he
          rw [iht.2.1 ch ha8 hnd.1, if_neg (fun hq => hcond hq.1)]
        · exact iht.1 ch hcht
      · intro ch h8 hch
        exact iht.2.1 ch h8 (fun hq => hch (List.mem_cons_of_mem a hq))
      · intro ch hch
        rcases List.mem_cons.mp hch with he | hcht
        · subst he
          rw [iht.2.2.2.2 (board * CHANNELS_PER_BOARD + ch) hja, if_neg hcond]
        · exact iht.2.2.2.1 ch hcht
      · intro j hj
        exact iht.2.2.2.2 j (fun ch hch => hj ch (List.mem_cons_of_mem a hch))

/-- The filtered (mask, blocked, state) triple computed inside
`setBoardChannels` before the hardware write. -/
def filteredTriple (now board m0 : Nat) (s : SolenoidDriver) : Nat × Nat × SolenoidDriver :=
  if s.config.safetyEnabled = true then
    filterMask now board (List.range CHANNELS_PER_BOARD) (m0 % 256) 0 s
  else (m0 % 256, 0, s)

theorem filteredTriple_weak (now board m0 : Nat) (s : SolenoidDriver) :
    ((filteredTriple now board m0 s).2.2.boardStates = s.boardStates) ∧
    ((filteredTriple now board m0 s).2.2.boardCount = s.boardCount) ∧
    ((filteredTriple now board m0 s).2.2.channelCount = s.channelCount) ∧
    ((filteredTriple now board m0 s).2.2.initialized = s.initialized) ∧
    ((filteredTriple now board m0 s).2.2.config = s.config) ∧
    ((filteredTriple now board m0 s).2.2.hwPorts = s.hwPorts) := by
  unfold filteredTriple
  split_ifs
  · have hw := filterMask_weak now board (List.range CHANNELS_PER_BOARD) (m0 % 256) 0 s
    exact ⟨hw.1, hw.2.2.1, hw.2.2.2.1, hw.2.2.2.2.1, hw.2.2.2.2.2.1, hw.2.1⟩
  · exact ⟨rfl, rfl, rfl, rfl, rfl, rfl⟩

theorem setBoardChannels_fields (now board m0 : Nat) (s : SolenoidDriver)
    (hinit : s.initialized = true) (hbb : board < s.boardCount) :
    (∀ b, (setBoardChannels now board m0 s).2.boardStates b =
      if b = board then (filteredTriple now board m0 s).1 else s.boardStates b) ∧
    (∀ b, (setBoardChannels now board m0 s).2.hwPorts b =
      if b = board then (filteredTriple now board m0 s).1 else s.hwPorts b) ∧
    (∀ j, (setBoardChannels now board m0 s).2.channels j =
      if j ∈ (List.range CHANNELS_PER_BOARD).map (fun ch => board * CHANNELS_PER_BOARD + ch)
      then updateState now
        ((filteredTriple now board m0 s).1.testBit (j - board * CHANNELS_PER_BOARD))
        ((filteredTriple now board m0 s).2.2.channels j)
      else (filteredTriple now board m0 s).2.2.channels j) ∧
    (setBoardChannels now board m0 s).2.boardCount = s.boardCount ∧
    (setBoardChannels now board m0 s).2.channelCount = s.channelCount ∧
    (setBoardChannels now board m0 s).2.initialized = s.initialized ∧
    (setBoardChannels now board m0 s).2.config = s.config := by
  have hFw := filteredTriple_weak now board m0 s
  unfold setBoardChannels
  rw [if_neg (by simp [hinit]), if_neg (by omega)]
  dsimp only
  have hFeq : (if s.config.safetyEnabled = true then
      filterMask now board (List.range CHANNELS_PER_BOARD) (m0 % 256) 0 s
    else (m0 % 256, 0, s)) = filteredTriple now board m0 s := rfl
  rw [hFeq]
  have hwb : (writeBoard board (filteredTriple now board m0 s).1
      (filteredTriple now board m0 s).2.2).1 = true :=
    writeBoard_fst _ _ _ (by rw [hFw.2.1]; omega)
  rw [if_neg (by simp [hwb])]
  set F := filteredTriple now board m0 s with hF
  set W := (writeBoard board F.1 F.2.2).2 with hW
  have hWbs := writeBoard_boardStates board F.1 F.2.2 (by rw [hFw.2.1]; omega)
  have hWm := writeBoard_misc board F.1 F.2.2
  have hfm := chFold_misc
    (fun i c => updateState now (F.1.testBit (i - board * CHANNELS_PER_BOARD)) c)
    ((List.range CHANNELS_PER_BOARD).map (fun ch => board * CHANNELS_PER_BOARD + ch)) W
  have core : ∀ X : SolenoidDriver,
      (X.boardStates = (updateBoardChannelStates now board F.1 W).boardStates ∧
        X.hwPorts = (updateBoardChannelStates now board F.1 W).hwPorts ∧
        X.channels = (updateBoardChannelStates now board F.1 W).channels ∧
        X.boardCount = (updateBoardChannelStates now board F.1 W).boardCount ∧
        X.channelCount = (updateBoardChannelStates now board F.1 W).channelCount ∧
        X.initialized = (updateBoardChannelStates now board F.1 W).initialized ∧
        X.config = (updateBoardChannelStates now board F.1 W).config) →
      (∀ b, X.boardStates b = if b = board then F.1 else s.boardStates b) ∧
      (∀ b, X.hwPorts b = if b = board then F.1 else s.hwPorts b) ∧
      (∀ j, X.channels j =
        if j ∈ (List.range CHANNELS_PER_BOARD).map
            (fun ch => board * CHANNELS_PER_BOARD + ch)
        then updateState now (F.1.testBit (j - board * CHANNELS_PER_BOARD))
          (F.2.2.channels j)
        else F.2.2.channels j) ∧
      X.boardCount = s.boardCount ∧ X.channelCount = s.channelCount ∧
      X.initialized = s.initialized ∧ X.config = s.config := by
    intro X hX
    unfold updateBoardChannelStates at hX
    refine ⟨fun b => ?_, fun b => ?_, fun j => ?_, ?_, ?_, ?_, ?_⟩
    · rw [hX.1, congrFun hfm.1 b, (hWbs b).1]
      by_cases hb : b = board
      · rw [if_pos hb, if_pos hb]
      · rw [if_neg hb, if_neg hb, congrFun hFw.1 b]
    · rw [hX.2.1, congrFun hfm.2.1 b, (hWbs b).2]
      by_cases hb : b = board
      · rw [if_pos hb, if_pos hb]
      · rw [if_neg hb, if_neg hb, congrFun hFw.2.2.2.2.2 b]
    · rw [congrFun hX.2.2.1 j,
        chFold_channels _ _ _ _ (boardChannelList_nodup board), congrFun hWm.1 j]
    · rw [hX.2.2.2.1, hfm.2.2.2.1, hWm.2.2.1, hFw.2.1]
    · rw [hX.2.2.2.2.1, hfm.2.2.2.2.1, hWm.2.2.2.1, hFw.2.2.1]
    · rw [hX.2.2.2.2.2.1, hfm.2.2.2.2.2.1, hWm.2.2.2.2.1, hFw.2.2.2.1]
    · rw [hX.2.2.2.2.2.2, hfm.2.2.2.2.2.2.1, hWm.2.2.2.2.2.1, hFw.2.2.2.2.1]
  split_ifs
  · exact core _ ⟨rfl, rfl, rfl, rfl, rfl, rfl, rfl⟩
  · exact core _ ⟨rfl, rfl, rfl, rfl, rfl, rfl, rfl⟩


/-- Claim C6: `setBoardChannels(board, mask)` is idempotent on well-formed,
cache-coherent driver states — applying the same mask twice in immediate
succession (same `millis()` instant) leaves exactly the channel states,
cached board masks and hardware registers of the single application, and in
particular does not re-stamp `lastOnTime` of any channel that is on. -/
theorem claim_C6 (s : SolenoidDriver) (now board mask : Nat)
    (hwf : WF s) (hinv : maskInv s) :
    (∀ j, (setBoardChannels now board mask
        (setBoardChannels now board mask s).2).2.channels j =
      (setBoardChannels now board mask s).2.channels j) ∧
    (∀ b, (setBoardChannels now board mask
        (setBoardChannels now board mask s).2).2.boardStates b =
      (setBoardChannels now board mask s).2.boardStates b) ∧
    (∀ b, (setBoardChannels now board mask
        (setBoardChannels now board mask s).2).2.hwPorts b =
      (setBoardChannels now board mask s).2.hwPorts b) ∧
    (∀ j, ((setBoardChannels now board mask s).2.channels j).isOn = true →
      ((setBoardChannels now board mask
        (setBoardChannels now board mask s).2).2.channels j).lastOnTime =
      ((setBoardChannels now board mask s).2.channels j).lastOnTime) := by
  by_cases hinit : s.initialized = true
  case neg =>
    have h1 : setBoardChannels now board mask s =
        (NOT_INITIALIZED, reportError NOT_INITIALIZED 255 s) := by
      unfold setBoardChannels
      rw [if_pos (by simp [hinit])]
    have h2 : setBoardChannels now board mask (setBoardChannels now board mask s).2 =
        (NOT_INITIALIZED, reportError NOT_INITIALIZED 255
          (reportError NOT_INITIALIZED 255 s)) := by
      rw [h1]
      show setBoardChannels now board mask (reportError NOT_INITIALIZED 255 s) = _
      unfold setBoardChannels
      rw [if_pos (by simp [reportError, hinit])]
    rw [h2, h1]
    exact ⟨fun _ => rfl, fun _ => rfl, fun _ => rfl, fun _ _ => rfl⟩
  case pos =>
  by_cases hbb : board < s.boardCount
  case neg =>
    have h1 : setBoardChannels now board mask s =
        (INVALID_BOARD, reportError INVALID_BOARD 255 s) := by
      unfold setBoardChannels
      rw [if_neg (by simp [hinit]), if_pos (by omega)]
    have h2 : setBoardChannels now board mask (setBoardChannels now board mask s).2 =
        (INVALID_BOARD, reportError INVALID_BOARD 255
          (reportError INVALID_BOARD 255 s)) := by
      rw [h1]
      show setBoardChannels now board mask (reportError INVALID_BOARD 255 s) = _
      unfold setBoardChannels
      rw [if_neg (by simp [reportError, hinit]), if_pos (by simp [reportError]; omega)]
    rw [h2, h1]
    exact ⟨fun _ => rfl, fun _ => rfl, fun _ => rfl, fun _ _ => rfl⟩
  case pos =>
  have hF1 := setBoardChannels_fields now board mask s hinit hbb
  have hr1init : (setBoardChannels now board mask s).2.initialized = true :=
    hF1.2.2.2.2.2.1.trans hinit
  have hr1bc : board < (setBoardChannels now board mask s).2.boardCount := by
    rw [hF1.2.2.2.1]
    exact hbb
  have hF2 := setBoardChannels_fields now board mask
    (setBoardChannels now board mask s).2 hr1init hr1bc
  have hr1cfg : (setBoardChannels now board mask s).2.config = s.config :=
    hF1.2.2.2.2.2.2
  have hm256 : mask % 256 < 256 := Nat.mod_lt _ (by omega)
  have hmem8 : ∀ ch, ch < 8 → ch ∈ List.range CHANNELS_PER_BOARD := by
    intro ch h8
    rw [List.mem_range]
    unfold CHANNELS_PER_BOARD
    omega
  have hmemM : ∀ j, j ∈ (List.range CHANNELS_PER_BOARD).map
      (fun ch => board * CHANNELS_PER_BOARD + ch) ↔ j / 8 = board :=
    fun j => boardChannelList_mem board j
  -- key per-pin facts: the second filter pass computes the same effective
  -- mask bit, its channel mutations are no-ops, and after the first call a
  -- board channel's isOn equals its effective-mask bit.
  have key : (∀ ch, ch < 8 →
      (filteredTriple now board mask (setBoardChannels now board mask s).2).1.testBit ch
        = (filteredTriple now board mask s).1.testBit ch) ∧
      (∀ j, (filteredTriple now board mask
          (setBoardChannels now board mask s).2).2.2.channels j =
        (setBoardChannels now board mask s).2.channels j) ∧
      (∀ ch, ch < 8 →
        ((setBoardChannels now board mask s).2.channels
          (board * CHANNELS_PER_BOARD + ch)).isOn
          = (filteredTriple now board mask s).1.testBit ch) := by
    have hr1chM : ∀ ch, ch < 8 →
        (setBoardChannels now board mask s).2.channels
            (board * CHANNELS_PER_BOARD + ch) =
          updateState now ((filteredTriple now board mask s).1.testBit ch)
            ((filteredTriple now board mask s).2.2.channels
              (board * CHANNELS_PER_BOARD + ch)) := by
      intro ch h8
      rw [hF1.2.2.1 (board * CHANNELS_PER_BOARD + ch),
        if_pos ((hmemM _).mpr (by unfold CHANNELS_PER_BOARD; omega)),
        show board * CHANNELS_PER_BOARD + ch - board * CHANNELS_PER_BOARD = ch
          by unfold CHANNELS_PER_BOARD; omega]
    have key3 : ∀ ch, ch < 8 →
        ((setBoardChannels now board mask s).2.channels
          (board * CHANNELS_PER_BOARD + ch)).isOn
          = (filteredTriple now board mask s).1.testBit ch := by
      intro ch h8
      rw [hr1chM ch h8, updateState_isOn]
    by_cases hsafe : s.config.safetyEnabled = true
    case neg =>
      have hA1 : filteredTriple now board mask s = (mask % 256, 0, s) := by
        unfold filteredTriple
        rw [if_neg hsafe]
      have hA2 : filteredTriple now board mask (setBoardChannels now board mask s).2 =
          (mask % 256, 0, (setBoardChannels now board mask s).2) := by
        unfold filteredTriple
        rw [if_neg (by rw [hr1cfg]; exact hsafe)]
      exact ⟨fun ch h8 => by rw [hA1, hA2], fun j => by rw [hA2], key3⟩
    case pos =>
      have hbound1 : ∀ ch ∈ List.range CHANNELS_PER_BOARD,
          board * CHANNELS_PER_BOARD + ch < s.channelCount := by
        intro ch hch
        rw [List.mem_range] at hch
        have h := hwf.1
        unfold CHANNELS_PER_BOARD at h hch ⊢
        omega
      have hbound2 : ∀ ch ∈ List.range CHANNELS_PER_BOARD,
          board * CHANNELS_PER_BOARD + ch
            < (setBoardChannels now board mask s).2.channelCount := by
        intro ch hch
        rw [hF1.2.2.2.2.1]
        exact hbound1 ch hch
      have hL8 : ∀ ch ∈ List.range CHANNELS_PER_BOARD, ch < 8 := by
        intro ch hch
        rw [List.mem_range] at hch
        unfold CHANNELS_PER_BOARD at hch
        omega
      have hS1 := filterMask_spec now board (List.range CHANNELS_PER_BOARD)
        (mask % 256) 0 s (List.nodup_range _) hL8 hbound1 hm256
      have hS2 := filterMask_spec now board (List.range CHANNELS_PER_BOARD)
        (mask % 256) 0 (setBoardChannels now board mask s).2 (List.nodup_range _)
        hL8 hbound2 hm256
      have hA1 : filteredTriple now board mask s =
          filterMask now board (List.range CHANNELS_PER_BOARD) (mask % 256) 0 s := by
        unfold filteredTriple
        rw [if_pos hsafe]
      have hA2 : filteredTriple now board mask (setBoardChannels now board mask s).2 =
          filterMask now board (List.range CHANNELS_PER_BOARD) (mask % 256) 0
            (setBoardChannels now board mask s).2 := by
        unfold filteredTriple
        rw [if_pos (by rw [hr1cfg]; exact hsafe)]
      have hr1bs : (setBoardChannels now board mask s).2.boardStates board =
          (filteredTriple now board mask s).1 := by
        rw [hF1.1 board, if_pos rfl]
      -- the central per-pin case analysis
      have pin : ∀ ch, ch < 8 →
          ((filteredTriple now board mask
              (setBoardChannels now board mask s).2).1.testBit ch
            = (filteredTriple now board mask s).1.testBit ch) ∧
          ((filteredTriple now board mask
              (setBoardChannels now board mask s).2).2.2.channels
              (board * CHANNELS_PER_BOARD + ch)
            = (setBoardChannels now board mask s).2.channels
              (board * CHANNELS_PER_BOARD + ch)) := by
        intro ch h8
        have hchmem := hmem8 ch h8
        have hE1 := hS1.1 ch hchmem
        have ht1 := hS1.2.2.2.1 ch hchmem
        have hE2 := hS2.1 ch hchmem
        have ht2 := hS2.2.2.2.1 ch hchmem
        rw [← hA1] at hE1 ht1
        rw [← hA2] at hE2 ht2
        rw [hr1bs, hr1cfg] at hE2 ht2
        by_cases hm : (mask % 256).testBit ch = true
        · by_cases hW : (s.boardStates board).testBit ch = true
          · -- cached on: the safety check never ran, the bit passes through
            have hE1v : (filteredTriple now board mask s).1.testBit ch
                = (mask % 256).testBit ch := by
              rw [hE1, if_neg (fun hq => hq.1.2 hW)]
            constructor
            · rw [hE2, if_neg (fun hq => hq.1.2 (by rw [hE1v]; exact hm)), hE1v]
            · rw [ht2, if_neg (fun hq => hq.2 (by rw [hE1v]; exact hm))]
          · -- cached off and requested on: the safety check ran
            have hiso : (s.channels (board * CHANNELS_PER_BOARD + ch)).isOn = false := by
              have hidx : (8 : Nat) * board + ch = board * CHANNELS_PER_BOARD + ch := by
                unfold CHANNELS_PER_BOARD
                omega
              have hh := hinv board hbb ch h8
              rw [hidx] at hh
              rw [← hh]
              exact Bool.eq_false_iff.mpr hW
            by_cases hV : (safeVerdict s.config now
                (s.channels (board * CHANNELS_PER_BOARD + ch))).1 = false
            · -- denied: the bit was cleared and the channel stayed off, so the
              -- second pass re-evaluates the same verdict and denies again
              have hE1v : (filteredTriple now board mask s).1.testBit ch = false := by
                rw [hE1, if_pos ⟨⟨hm, fun hq => absurd hq hW⟩, hV⟩]
              have ht1v : (filteredTriple now board mask s).2.2.channels
                  (board * CHANNELS_PER_BOARD + ch) =
                  (safeVerdict s.config now
                    (s.channels (board * CHANNELS_PER_BOARD + ch))).2.1 := by
                rw [ht1, if_pos ⟨hm, fun hq => absurd hq hW⟩]
              have hr1v : (setBoardChannels now board mask s).2.channels
                  (board * CHANNELS_PER_BOARD + ch) =
                  (safeVerdict s.config now
                    (s.channels (board * CHANNELS_PER_BOARD + ch))).2.1 := by
                rw [hr1chM ch h8, hE1v, ht1v]
                exact updateState_off_of_off now _ (by
                  rw [(safeVerdict_snd_preserves s.config now
                    (s.channels (board * CHANNELS_PER_BOARD + ch))).1]
                  exact hiso)
              have hidem := safeVerdict_idem s.config now
                (s.channels (board * CHANNELS_PER_BOARD + ch))
              constructor
              · rw [hE2, if_pos ⟨⟨hm, fun hq => by
                    rw [hE1v] at hq
                    exact Bool.noConfusion hq⟩,
                  by rw [hr1v, hidem]; exact hV⟩, hE1v]
              · rw [ht2, if_pos ⟨hm, fun hq => by
                    rw [hE1v] at hq
                    exact Bool.noConfusion hq⟩,
                  hr1v, hidem]
            · -- allowed: the bit stayed set, so the second pass sees the
              -- channel already on and skips the check entirely
              have hE1v : (filteredTriple now board mask s).1.testBit ch
                  = (mask % 256).testBit ch := by
                rw [hE1, if_neg (fun hq => hV hq.2)]
              constructor
              · rw [hE2, if_neg (fun hq => hq.1.2 (by rw [hE1v]; exact hm)), hE1v]
              · rw [ht2, if_neg (fun hq => hq.2 (by rw [hE1v]; exact hm))]
        · -- bit not requested: never checked, passes through on both runs
          have hE1v : (filteredTriple now board mask s).1.testBit ch
              = (mask % 256).testBit ch := by
            rw [hE1, if_neg (fun hq => hm hq.1.1)]
          constructor
          · rw [hE2, if_neg (fun hq => hm hq.1.1), hE1v]
          · rw [ht2, if_neg (fun hq => hm hq.1)]
      refine ⟨fun ch h8 => (pin ch h8).1, fun j => ?_, key3⟩
      by_cases hjM : j / 8 = board
      · have h8 : j % 8 < 8 := Nat.mod_lt j (by omega)
        have hj : board * CHANNELS_PER_BOARD + j % 8 = j := by
          unfold CHANNELS_PER_BOARD
          omega
        rw [← hj]
        exact (pin (j % 8) h8).2
      · rw [← hA2] at hS2
        rw [hS2.2.2.2.2 j (fun ch hch he => by
          rw [List.mem_range] at hch
          unfold CHANNELS_PER_BOARD at hch he
          omega)]
  -- the two effective masks agree as numbers
  have hnum : (filteredTriple now board mask (setBoardChannels now board mask s).2).1 =
      (filteredTriple now board mask s).1 := by
    apply Nat.eq_of_testBit_eq
    intro i
    by_cases hi : i < 8
    · exact key.1 i hi
    · have h256 : (256 : Nat) ≤ 2 ^ i :=
        le_trans (show (256 : Nat) ≤ 2 ^ 8 by norm_num)
          (Nat.pow_le_pow_right (by omega) (by omega))
      have hlt1 : (filteredTriple now board mask s).1 < 2 ^ i := by
        have hb : (filteredTriple now board mask s).1 < 256 := by
          unfold filteredTriple
          split_ifs
          · exact (filterMask_spec now board (List.range CHANNELS_PER_BOARD)
              (mask % 256) 0 s (List.nodup_range _)
              (fun ch hch => by
                rw [List.mem_range] at hch
                unfold CHANNELS_PER_BOARD at hch
                omega)
              (fun ch hch => by
                rw [List.mem_range] at hch
                have h := hwf.1
                unfold CHANNELS_PER_BOARD at h hch ⊢
                omega) hm256).2.2.1
          · exact hm256
        omega
      have hlt2 : (filteredTriple now board mask
          (setBoardChannels now board mask s).2).1 < 2 ^ i := by
        have hb : (filteredTriple now board mask
            (setBoardChannels now board mask s).2).1 < 256 := by
          unfold filteredTriple
          split_ifs
          · exact (filterMask_spec now board (List.range CHANNELS_PER_BOARD)
              (mask % 256) 0 (setBoardChannels now board mask s).2
              (List.nodup_range _)
              (fun ch hch => by
                rw [List.mem_range] at hch
                unfold CHANNELS_PER_BOARD at hch
                omega)
              (fun ch hch => by
                rw [List.mem_range] at hch
                rw [hF1.2.2.2.2.1]
                have h := hwf.1
                unfold CHANNELS_PER_BOARD at h hch ⊢
                omega) hm256).2.2.1
          · exact hm256
        omega
      rw [Nat.testBit_lt_two_pow hlt1, Nat.testBit_lt_two_pow hlt2]
  have hchannels : ∀ j, (setBoardChannels now board mask
      (setBoardChannels now board mask s).2).2.channels j =
      (setBoardChannels now board mask s).2.channels j := by
    intro j
    rw [hF2.2.2.1 j]
    by_cases hjM : j ∈ (List.range CHANNELS_PER_BOARD).map
        (fun ch => board * CHANNELS_PER_BOARD + ch)
    · rw [if_pos hjM, key.2.1 j, hnum]
      have hjb : j / 8 = board := (hmemM j).mp hjM
      have h8 : j % 8 < 8 := Nat.mod_lt j (by omega)
      have hsub : j - board * CHANNELS_PER_BOARD = j % 8 := by
        unfold CHANNELS_PER_BOARD
        omega
      have hj : board * CHANNELS_PER_BOARD + j % 8 = j := by
        unfold CHANNELS_PER_BOARD
        omega
      rw [hsub]
      have hiso := key.2.2 (j % 8) h8
      rw [hj] at hiso
      cases hb : (filteredTriple now board mask s).1.testBit (j % 8)
      · exact updateState_off_of_off now _ (by rw [hiso, hb])
      · exact updateState_on_of_on now _ (by rw [hiso, hb])
    · rw [if_neg hjM, key.2.1 j]
  refine ⟨hchannels, fun b => ?_, fun b => ?_, fun j _ => by rw [hchannels j]⟩
  · rw [hF2.1 b]
    by_cases hb : b = board
    · rw [if_pos hb, hnum, hb, hF1.1 board, if_pos rfl]
    · rw [if_neg hb]
  · rw [hF2.2.1 b]
    by_cases hb : b = board
    · rw [if_pos hb, hnum, hb]
      rw [hF1.2.1 board, if_pos rfl]
    · rw [if_neg hb]

theorem claim_C6_witness :
    (let sW := setConfig { maxDutyCycle := ⟨1, 1⟩ }
      (begin (fun _ => true) (fun a => 0x20 + a) 2 init0).2
     WF sW ∧ maskInv sW ∧
       (setBoardChannels 5 0 0x5A (setBoardChannels 5 0 0x5A sW).2).2.channels 3 =
         (setBoardChannels 5 0 0x5A sW).2.channels 3 ∧
       (setBoardChannels 5 0 0x5A (setBoardChannels 5 0 0x5A sW).2).2.boardStates 0 =
         (setBoardChannels 5 0 0x5A sW).2.boardStates 0 ∧
       (setBoardChannels 5 0 0x5A (setBoardChannels 5 0 0x5A sW).2).2.hwPorts 0 =
         (setBoardChannels 5 0 0x5A sW).2.hwPorts 0) := by
  have h := claim_C6 (setConfig { maxDutyCycle := ⟨1, 1⟩ }
      (begin (fun _ => true) (fun a => 0x20 + a) 2 init0).2) 5 0 0x5A
    (by decide) (by decide)
  exact ⟨by decide, by decide, h.1 3, h.2.1 0, h.2.2.1 0⟩

end ClaimC6
